import Mathlib

/-!
Verification of the Saraswati collaborative knowledge-base core.

This file shallowly embeds the note/version lifecycle (`app/services/notes.py`),
the review state machine (`app/services/reviews.py`), the in-memory version
store (`app/repositories/in_memory.py`) and the hybrid search ranker
(`app/services/search.py`).

Modelling conventions:
- ids are natural numbers drawn from the store's single counter (`_new_id`);
- wall-clock timestamps (`datetime.now`) are modelled by a logical clock;
- floating point relevance scores are modelled by exact rationals;
- Python exceptions raised by the services (`HTTPException`) are modelled by
  `Except Err`; since the in-memory store mutates in place, every operation
  returns the post state even when it raises, mirroring the fact that
  mutations performed before the raise survive it;
- the store's nested per-note version dictionaries are flattened into one
  list keyed by the globally unique version id; Python dict insertion order
  corresponds to list order, in-place dict overwrites to in-place list map;
- `Review.draft_version_id` is `Option Nat`; `none` encodes the empty-string
  sentinel that marks a special (deletion/restore) review;
- the opaque `metadata` bag of review events, which no claim touches, is not
  modelled; neither are embedding-provider failures (a raising embedding call
  aborts an operation before any mutation, leaving the state unchanged).
-/

/-- Lifecycle state of a `NoteVersion` (`NoteState` in `models/note.py`). -/
inductive NoteState where
  | draft
  | needsReview
  | approved
deriving DecidableEq, Repr

/-- Review workflow status (`ReviewStatus` in `models/review.py`).
`opened` models the source's `OPEN` (a Lean keyword). -/
inductive ReviewStatus where
  | opened
  | changesRequested
  | merged
  | closed
deriving DecidableEq, Repr

/-- Per-reviewer decision kind (`ReviewDecision` in `models/review.py`). -/
inductive ReviewDecision where
  | approved
  | changesRequested
  | commented
deriving DecidableEq, Repr

/-- Timeline event kind (`ReviewEventType` in `models/review.py`). -/
inductive ReviewEventType where
  | submitted
  | comment
  | approved
  | changesRequested
  | merged
  | closed
  | reopened
  | updated
deriving DecidableEq, Repr

/-- Error taxonomy of the services, by HTTP status code raised:
404 `notFound`, 400 `invalidState` (also used for validation errors),
403 `forbidden`, 500 `internal`. -/
inductive Err where
  | notFound
  | invalidState
  | forbidden
  | internal
deriving DecidableEq, Repr

/-- Decidable equality of operation results, used to evaluate the embedded
services on concrete stores. -/
instance {ε α : Type} [DecidableEq ε] [DecidableEq α] : DecidableEq (Except ε α)
  | Except.error x, Except.error y =>
    if h : x = y then isTrue (by rw [h])
    else isFalse (by intro hc; cases hc; exact h rfl)
  | Except.error _, Except.ok _ => isFalse (by intro hc; cases hc)
  | Except.ok _, Except.error _ => isFalse (by intro hc; cases hc)
  | Except.ok x, Except.ok y =>
    if h : x = y then isTrue (by rw [h])
    else isFalse (by intro hc; cases hc; exact h rfl)

/-- `NoteVersion` from `models/note.py`. -/
structure Version where
  id : Nat
  note_id : Nat
  version_index : Nat
  title : String
  content : String
  tags : List String
  state : NoteState
  created_at : Nat
  created_by : String
  submitted_by : Option String := none
  committed_by : Option String := none
  reviewed_by : Option String := none
  review_comment : Option String := none
  vector : Option (List Rat) := none
deriving DecidableEq, Repr

/-- `Note` from `models/note.py`. -/
structure Note where
  id : Nat
  title : String
  created_at : Nat
  created_by : String
  committed_by : Option String := none
  tags : List String
  current_version_id : Option Nat := none
  upvotes : Nat := 0
  downvotes : Nat := 0
  deleted_at : Option Nat := none
  deleted_by : Option String := none
deriving DecidableEq, Repr

/-- `ReviewDecisionState` from `models/review.py`. -/
structure ReviewDecisionState where
  decision : ReviewDecision
  comment : Option String := none
  updated_at : Nat
deriving DecidableEq, Repr

/-- `Review` from `models/review.py`. `draft_version_id = none` models the
empty-string sentinel of special (deletion/restore) reviews. -/
structure Review where
  id : Nat
  note_id : Nat
  draft_version_id : Option Nat
  base_version_id : Option Nat := none
  title : String
  description : Option String := none
  created_by : String
  reviewer_ids : List String := []
  status : ReviewStatus
  review_decisions : List (String × ReviewDecisionState) := []
  merge_version_id : Option Nat := none
  merged_by : Option String := none
  created_at : Nat
  updated_at : Nat
  merged_at : Option Nat := none
  closed_at : Option Nat := none
  type : Option String := none
deriving DecidableEq, Repr

/-- `ReviewEvent` from `models/review.py` (opaque metadata bag omitted). -/
structure ReviewEvent where
  id : Nat
  review_id : Nat
  event_type : ReviewEventType
  author_id : String
  message : Option String := none
  created_at : Nat
deriving DecidableEq, Repr

/-- The whole state held by `InMemoryNotesRepository`: notes, versions,
reviews and review events in insertion order, plus the id counter and the
logical clock standing in for wall-clock time. -/
structure RepoState where
  notes : List Note
  versions : List Version
  reviews : List Review
  events : List ReviewEvent
  nextId : Nat
  clock : Nat
deriving DecidableEq, Repr

/-- The empty repository, as built by `InMemoryNotesRepository.__init__`
(`itertools.count(1)` starts the id counter at 1). -/
def initState : RepoState :=
  { notes := [], versions := [], reviews := [], events := [], nextId := 1, clock := 0 }

/-- Generic lookup by numeric key, modelling dictionary access /
first-match search over insertion-ordered entries. -/
def findBy {α : Type} (key : α → Nat) : List α → Nat → Option α
  | [], _ => none
  | x :: rest, k => if key x = k then some x else findBy key rest k

/-- Generic in-place update of every entry with the given key, modelling an
in-place dictionary overwrite (ids are unique in reachable states). -/
def updateBy {α : Type} (key : α → Nat) (l : List α) (k : Nat) (f : α → α) : List α :=
  l.map (fun x => if key x = k then f x else x)

/-- Remove the first entry with the given key (dictionary deletion). -/
def removeBy {α : Type} (key : α → Nat) : List α → Nat → List α
  | [], _ => []
  | x :: rest, k => if key x = k then rest else x :: removeBy key rest k

/-- Python `title or fallback`: the empty string is falsy. -/
def strOr (a : Option String) (b : String) : String :=
  match a with
  | some s => if s = "" then b else s
  | none => b

/-- Python `tags or fallback`: the empty list is falsy. -/
def listOr (a : Option (List String)) (b : List String) : List String :=
  match a with
  | some l => if l = [] then b else l
  | none => b

/-- `InMemoryNotesRepository.get_note`. -/
def getNote (s : RepoState) (nid : Nat) : Option Note :=
  findBy Note.id s.notes nid

/-- `InMemoryNotesRepository.get_version`. -/
def getVersion (s : RepoState) (vid : Nat) : Option Version :=
  findBy Version.id s.versions vid

/-- `InMemoryNotesRepository.get_review`. -/
def getReview (s : RepoState) (rid : Nat) : Option Review :=
  findBy Review.id s.reviews rid

/-- `InMemoryNotesRepository.get_review_by_version`: first review whose
`draft_version_id` equals the given (real, hence non-sentinel) version id. -/
def getReviewByVersion : List Review → Nat → Option Review
  | [], _ => none
  | r :: rest, vid => if r.draft_version_id = some vid then some r else getReviewByVersion rest vid

/-- All versions belonging to a note, in insertion order. -/
def versionsOf : List Version → Nat → List Version
  | [], _ => []
  | v :: rest, nid => if v.note_id = nid then v :: versionsOf rest nid else versionsOf rest nid

/-- The DRAFT versions of a note, in insertion order. -/
def draftsOf : List Version → Nat → List Version
  | [], _ => []
  | v :: rest, nid =>
    if v.note_id = nid ∧ v.state = NoteState.draft then v :: draftsOf rest nid
    else draftsOf rest nid

/-- One step of the scans keeping the entry with the largest
`version_index`, first winning ties (the loop bodies of
`get_drafts_by_note_ids` and of Python `max`). -/
def pickStep (acc : Option Version) (v : Version) : Option Version :=
  match acc with
  | none => some v
  | some e => if e.version_index < v.version_index then some v else some e

/-- Scan keeping the entry with the largest `version_index`, first wins ties
(the loop body of `get_drafts_by_note_ids`). -/
def pickMaxIndex (l : List Version) : Option Version :=
  l.foldl pickStep none

/-- `InMemoryNotesRepository.get_drafts_by_note_ids`, restricted to one note:
the note's draft with the largest `version_index`, if any. -/
def getDraftForNote (s : RepoState) (nid : Nat) : Option Version :=
  pickMaxIndex (draftsOf s.versions nid)

/-- `InMemoryNotesRepository.get_latest_version`: the note's version with the
largest `version_index` (Python `max` keeps the first maximal element). -/
def getLatestVersion (s : RepoState) (nid : Nat) : Option Version :=
  pickMaxIndex (versionsOf s.versions nid)

/-- `InMemoryNotesRepository.list_note_versions`: a note's versions sorted by
`version_index` (Python `sorted` is a stable merge sort). -/
def listNoteVersions (s : RepoState) (nid : Nat) : List Version :=
  (versionsOf s.versions nid).mergeSort (fun a b => decide (a.version_index ≤ b.version_index))

/-- Partial field update for `update_version`: the outer `Option` is key
presence in the update dictionary, the inner value replaces the field. -/
structure VersionPatch where
  title : Option String := none
  content : Option String := none
  tags : Option (List String) := none
  state : Option NoteState := none
  submitted_by : Option (Option String) := none
  committed_by : Option (Option String) := none
  reviewed_by : Option (Option String) := none
  review_comment : Option (Option String) := none
  vector : Option (Option (List Rat)) := none

/-- Field-merge semantics of `update_version`: fields named in the update
dictionary are replaced, the rest are untouched. -/
def applyVersionPatch (v : Version) (p : VersionPatch) : Version :=
  { v with
    title := p.title.getD v.title
    content := p.content.getD v.content
    tags := p.tags.getD v.tags
    state := p.state.getD v.state
    submitted_by := p.submitted_by.getD v.submitted_by
    committed_by := p.committed_by.getD v.committed_by
    reviewed_by := p.reviewed_by.getD v.reviewed_by
    review_comment := p.review_comment.getD v.review_comment
    vector := p.vector.getD v.vector }

/-- `InMemoryNotesRepository.update_version`: merge the patch into the stored
version in place; `none` when the version id does not resolve. -/
def updateVersionRepo (s : RepoState) (vid : Nat) (p : VersionPatch) :
    RepoState × Option Version :=
  match getVersion s vid with
  | none => (s, none)
  | some v =>
    let v' := applyVersionPatch v p
    ({ s with versions := updateBy Version.id s.versions vid (fun _ => v') }, some v')

/-- `InMemoryNotesRepository.create_note_with_version`: atomically create a
note and its version-0 DRAFT; the note's `current_version_id` is initialized
to that fresh draft's id. -/
def createNoteWithVersion (s : RepoState) (title content : String) (tags : List String)
    (author_id : String) (vector : Option (List Rat)) : RepoState × Note × Version :=
  let note_id := s.nextId
  let version_id := s.nextId + 1
  let note : Note :=
    { id := note_id, title := title, created_at := s.clock, created_by := author_id,
      tags := tags, current_version_id := some version_id, upvotes := 0, downvotes := 0 }
  let version : Version :=
    { id := version_id, note_id := note_id, version_index := 0, title := title,
      content := content, tags := tags, created_by := author_id,
      state := NoteState.draft, vector := vector, created_at := s.clock }
  ({ s with notes := s.notes ++ [note], versions := s.versions ++ [version],
            nextId := s.nextId + 2, clock := s.clock + 1 }, note, version)

/-- `InMemoryNotesRepository.create_new_version`: branch a new DRAFT at
`max(version_index) + 1` (`-1` default giving index 0 on an empty history). -/
def createNewVersion (s : RepoState) (nid : Nat) (base : Version) (author_id : String)
    (content : String) (title : Option String) (tags : Option (List String))
    (vector : Option (List Rat)) : RepoState × Version :=
  let next_index := (versionsOf s.versions nid).foldl (fun a v => max a (v.version_index + 1)) 0
  let version : Version :=
    { id := s.nextId, note_id := nid, version_index := next_index,
      title := strOr title base.title, content := content,
      tags := listOr tags base.tags, state := NoteState.draft,
      created_by := author_id, vector := vector, created_at := s.clock }
  ({ s with versions := s.versions ++ [version], nextId := s.nextId + 1,
            clock := s.clock + 1 }, version)

/-- `InMemoryNotesRepository.set_note_current_version`. -/
def setNoteCurrentVersion (s : RepoState) (nid : Nat) (vid : Option Nat)
    (committed_by : Option String) : RepoState :=
  let f := fun (n : Note) => { n with current_version_id := vid, committed_by := committed_by }
  { s with notes := updateBy Note.id s.notes nid f }

/-- `InMemoryNotesRepository.mark_note_deleted`: stamp the soft-delete marker;
silently a no-op when the note id does not resolve. -/
def markNoteDeleted (s : RepoState) (nid : Nat) (deleter_id : String) : RepoState :=
  let f := fun (n : Note) => { n with deleted_at := some s.clock, deleted_by := some deleter_id }
  { s with notes := updateBy Note.id s.notes nid f, clock := s.clock + 1 }

/-- `InMemoryNotesRepository.mark_note_restored`: clear the soft-delete marker. -/
def markNoteRestored (s : RepoState) (nid : Nat) : RepoState :=
  let f := fun (n : Note) => { n with deleted_at := none, deleted_by := none }
  { s with notes := updateBy Note.id s.notes nid f }

/-- `InMemoryNotesRepository.update_vote_counts` (deltas are 0 or 1 and the
counters are naturals, so `max(0, _)` is the identity). -/
def updateVoteCounts (s : RepoState) (nid : Nat) (up_delta down_delta : Nat) :
    RepoState × Option Note :=
  match getNote s nid with
  | none => (s, none)
  | some note =>
    let n' := { note with upvotes := note.upvotes + up_delta,
                          downvotes := note.downvotes + down_delta }
    ({ s with notes := updateBy Note.id s.notes nid (fun _ => n') }, some n')

/-- `InMemoryNotesRepository.delete_version`. -/
def deleteVersionRepo (s : RepoState) (vid : Nat) : RepoState :=
  { s with versions := removeBy Version.id s.versions vid }

/-- `InMemoryNotesRepository.create_review`: a fresh review starts OPEN with
no decisions and no merge/close bookkeeping. -/
def createReviewRepo (s : RepoState) (note_id : Nat) (draft_version_id : Option Nat)
    (base_version_id : Option Nat) (title : String) (description : Option String)
    (created_by : String) (reviewer_ids : List String) (review_type : Option String) :
    RepoState × Review :=
  let review : Review :=
    { id := s.nextId, note_id := note_id, draft_version_id := draft_version_id,
      base_version_id := base_version_id, title := title, description := description,
      created_by := created_by, reviewer_ids := reviewer_ids,
      status := ReviewStatus.opened, review_decisions := [],
      merge_version_id := none, merged_by := none,
      created_at := s.clock, updated_at := s.clock,
      merged_at := none, closed_at := none, type := review_type }
  ({ s with reviews := s.reviews ++ [review], nextId := s.nextId + 1,
            clock := s.clock + 1 }, review)

/-- Partial field update for `update_review`. -/
structure ReviewPatch where
  title : Option String := none
  description : Option (Option String) := none
  reviewer_ids : Option (List String) := none
  status : Option ReviewStatus := none
  review_decisions : Option (List (String × ReviewDecisionState)) := none
  base_version_id : Option (Option Nat) := none
  merge_version_id : Option (Option Nat) := none
  merged_by : Option (Option String) := none
  updated_at : Option Nat := none
  merged_at : Option (Option Nat) := none
  closed_at : Option (Option Nat) := none

/-- Field-merge semantics of `update_review`. -/
def applyReviewPatch (r : Review) (p : ReviewPatch) : Review :=
  { r with
    title := p.title.getD r.title
    description := p.description.getD r.description
    reviewer_ids := p.reviewer_ids.getD r.reviewer_ids
    status := p.status.getD r.status
    review_decisions := p.review_decisions.getD r.review_decisions
    base_version_id := p.base_version_id.getD r.base_version_id
    merge_version_id := p.merge_version_id.getD r.merge_version_id
    merged_by := p.merged_by.getD r.merged_by
    updated_at := p.updated_at.getD r.updated_at
    merged_at := p.merged_at.getD r.merged_at
    closed_at := p.closed_at.getD r.closed_at }

/-- `InMemoryNotesRepository.update_review`. -/
def updateReviewRepo (s : RepoState) (rid : Nat) (p : ReviewPatch) :
    RepoState × Option Review :=
  match getReview s rid with
  | none => (s, none)
  | some r =>
    let r' := applyReviewPatch r p
    ({ s with reviews := updateBy Review.id s.reviews rid (fun _ => r') }, some r')

/-- `InMemoryNotesRepository.add_review_event` (opaque metadata omitted). -/
def addReviewEvent (s : RepoState) (rid : Nat) (event_type : ReviewEventType)
    (author_id : String) (message : Option String) : RepoState × ReviewEvent :=
  let ev : ReviewEvent :=
    { id := s.nextId, review_id := rid, event_type := event_type,
      author_id := author_id, message := message, created_at := s.clock }
  ({ s with events := s.events ++ [ev], nextId := s.nextId + 1, clock := s.clock + 1 }, ev)

/-- `InMemoryNotesRepository.list_review_events`: a review's timeline in
append order (the default limit of 200 is not modelled; no claim reaches it). -/
def listReviewEvents : List ReviewEvent → Nat → List ReviewEvent
  | [], _ => []
  | e :: rest, rid =>
    if e.review_id = rid then e :: listReviewEvents rest rid else listReviewEvents rest rid

/-- `NotesService.create_note`: compute the embedding (supplied here as the
oracle argument `vec`) and atomically create the note with its version-0
draft. -/
def createNote (s : RepoState) (author_id title content : String) (tags : List String)
    (vec : List Rat) : RepoState × Except Err (Note × Version) :=
  let r := createNoteWithVersion s title content tags author_id (some vec)
  (r.1, Except.ok r.2)

/-- `NotesService.update_draft`: 404 when the version is missing, 400 when it
is not editable (neither DRAFT nor NEEDS_REVIEW, i.e. APPROVED), 403 when it
is a DRAFT owned by someone else; otherwise merge the given fields,
recomputing the embedding (oracle `vec`) when title or content changed. -/
def updateDraft (s : RepoState) (version_id : Nat) (author_id : String)
    (title content : Option String) (tags : Option (List String)) (vec : List Rat) :
    RepoState × Except Err Version :=
  match getVersion s version_id with
  | none => (s, Except.error Err.notFound)
  | some version =>
    if ¬ (version.state = NoteState.draft ∨ version.state = NoteState.needsReview) then
      (s, Except.error Err.invalidState)
    else if version.state = NoteState.draft ∧ version.created_by ≠ author_id then
      (s, Except.error Err.forbidden)
    else
      let patch : VersionPatch :=
        { title := title, content := content, tags := tags,
          vector := if content.isSome ∨ title.isSome then some (some vec) else none }
      let r := updateVersionRepo s version_id patch
      match r.2 with
      | none => (r.1, Except.error Err.notFound)
      | some v => (r.1, Except.ok v)

/-- `NotesService.submit_for_review`: only a DRAFT may be submitted; it
transitions to NEEDS_REVIEW and records `submitted_by` (and the optional
summary comment). -/
def submitForReview (s : RepoState) (version_id : Nat) (submitter_id : String)
    (review_comment : Option String) : RepoState × Except Err Version :=
  match getVersion s version_id with
  | none => (s, Except.error Err.notFound)
  | some version =>
    if version.state ≠ NoteState.draft then (s, Except.error Err.invalidState)
    else
      let patch : VersionPatch :=
        { state := some NoteState.needsReview, submitted_by := some (some submitter_id),
          review_comment := match review_comment with
            | some c => some (some c)
            | none => none }
      let r := updateVersionRepo s version_id patch
      match r.2 with
      | none => (r.1, Except.error Err.notFound)
      | some v => (r.1, Except.ok v)

/-- `NotesService.approve_version`: only a NEEDS_REVIEW version may be
approved; it transitions to APPROVED, records reviewer bookkeeping, and the
owning note's `current_version_id` is pointed at it. -/
def approveVersion (s : RepoState) (version_id : Nat) (reviewer_id : String)
    (review_comment : Option String) : RepoState × Except Err Version :=
  match getVersion s version_id with
  | none => (s, Except.error Err.notFound)
  | some version =>
    if version.state ≠ NoteState.needsReview then (s, Except.error Err.invalidState)
    else
      let patch : VersionPatch :=
        { state := some NoteState.approved, committed_by := some (some reviewer_id),
          reviewed_by := some (some reviewer_id), review_comment := some review_comment }
      let r := updateVersionRepo s version_id patch
      match r.2 with
      | none => (r.1, Except.error Err.notFound)
      | some approved =>
        let s2 := setNoteCurrentVersion r.1 approved.note_id (some version_id) (some reviewer_id)
        (s2, Except.ok approved)

/-- `NotesService.create_draft_from_current`: requires the note to have a
`current_version_id`; when a draft already exists for the note it is updated
in place, otherwise a new version is branched from the current one. -/
def createDraftFromCurrent (s : RepoState) (note_id : Nat) (author_id : String)
    (updated_content : String) (title : Option String) (tags : Option (List String))
    (vec : List Rat) : RepoState × Except Err Version :=
  match getNote s note_id with
  | none => (s, Except.error Err.notFound)
  | some note =>
    match note.current_version_id with
    | none => (s, Except.error Err.invalidState)
    | some cur_id =>
      match getVersion s cur_id with
      | none => (s, Except.error Err.notFound)
      | some base =>
        let payload_title := strOr title base.title
        let payload_tags := listOr tags base.tags
        match getDraftForNote s note_id with
        | some existing =>
          let patch : VersionPatch :=
            { title := some payload_title, content := some updated_content,
              tags := some payload_tags, vector := some (some vec) }
          let r := updateVersionRepo s existing.id patch
          match r.2 with
          | none => (r.1, Except.error Err.internal)
          | some u => (r.1, Except.ok u)
        | none =>
          let r :=
            createNewVersion s note_id base author_id updated_content
              (some payload_title) (some payload_tags) (some vec)
          (r.1, Except.ok r.2)

/-- `NotesService.discard_draft`: 404 without a note or a draft, 403 for a
non-owner; deletes the draft row and, when it was the note's current version,
resets the pointer to the latest APPROVED version or to null. -/
def discardDraft (s : RepoState) (note_id : Nat) (author_id : String) :
    RepoState × Except Err Unit :=
  match getNote s note_id with
  | none => (s, Except.error Err.notFound)
  | some note =>
    match getDraftForNote s note_id with
    | none => (s, Except.error Err.notFound)
    | some draft =>
      if draft.created_by ≠ author_id then (s, Except.error Err.forbidden)
      else
        let s1 := deleteVersionRepo s draft.id
        if note.current_version_id = some draft.id then
          match getLatestVersion s1 note_id with
          | some latest =>
            if latest.state = NoteState.approved then
              (setNoteCurrentVersion s1 note_id (some latest.id) latest.committed_by,
               Except.ok ())
            else (setNoteCurrentVersion s1 note_id none none, Except.ok ())
          | none => (setNoteCurrentVersion s1 note_id none none, Except.ok ())
        else (s1, Except.ok ())

/-- `NotesService._select_display_version`: the current version when it
resolves, else the note's latest version by index. -/
def selectDisplayVersion (s : RepoState) (note : Note) : Option Version :=
  match note.current_version_id with
  | some cid =>
    match getVersion s cid with
    | some v => some v
    | none => getLatestVersion s note.id
  | none => getLatestVersion s note.id

/-- `NotesService.vote_note` with `action` modelled as the boolean
`upvote`: bump the matching counter and return the note with its display
version. -/
def voteNote (s : RepoState) (note_id : Nat) (upvote : Bool) :
    RepoState × Except Err (Note × Version) :=
  let r := updateVoteCounts s note_id (if upvote then 1 else 0) (if upvote then 0 else 1)
  match r.2 with
  | none => (r.1, Except.error Err.notFound)
  | some note =>
    match selectDisplayVersion r.1 note with
    | none => (r.1, Except.error Err.notFound)
    | some v => (r.1, Except.ok (note, v))

/-- `NotesService.delete_note`: soft delete via the repository marker. -/
def deleteNote (s : RepoState) (note_id : Nat) (deleter_id : String) : RepoState :=
  markNoteDeleted s note_id deleter_id

/-- `NotesService.restore_note`. -/
def restoreNote (s : RepoState) (note_id : Nat) : RepoState :=
  markNoteRestored s note_id

/-- `NotesService.request_note_deletion`: requires the note and a published
current version; creates a special review with the empty draft sentinel,
type "deletion", and a SUBMITTED event. -/
def requestNoteDeletion (s : RepoState) (note_id : Nat) (requester_id : String)
    (reason : Option String) (reviewer_ids : Option (List String)) :
    RepoState × Except Err Review :=
  match getNote s note_id with
  | none => (s, Except.error Err.notFound)
  | some note =>
    match note.current_version_id with
    | none => (s, Except.error Err.invalidState)
    | some cur =>
      let r :=
        createReviewRepo s note_id none (some cur) ("Delete: " ++ note.title)
          (some (reason.getD ("Request to delete note " ++ note.title)))
          requester_id (reviewer_ids.getD []) (some "deletion")
      let s2 := (addReviewEvent r.1 r.2.id ReviewEventType.submitted requester_id reason).1
      (s2, Except.ok r.2)

/-- `NotesService.request_note_restore`: like deletion requests but allowed
even without (or with) a current version; type "restore". -/
def requestNoteRestore (s : RepoState) (note_id : Nat) (requester_id : String)
    (reason : Option String) (reviewer_ids : Option (List String)) :
    RepoState × Except Err Review :=
  match getNote s note_id with
  | none => (s, Except.error Err.notFound)
  | some note =>
    let r :=
      createReviewRepo s note_id none note.current_version_id ("Restore: " ++ note.title)
        (some (reason.getD ("Request to restore note " ++ note.title)))
        requester_id (reviewer_ids.getD []) (some "restore")
    let s2 := (addReviewEvent r.1 r.2.id ReviewEventType.submitted requester_id reason).1
    (s2, Except.ok r.2)

/-- Trim CHANGES_REQUESTED decisions on resubmission
(`ReviewsService.submit_version_for_review`). -/
def trimChangesRequested : List (String × ReviewDecisionState) →
    List (String × ReviewDecisionState)
  | [] => []
  | p :: rest =>
    if p.2.decision = ReviewDecision.changesRequested then trimChangesRequested rest
    else p :: trimChangesRequested rest

/-- Dictionary insert-or-overwrite for review decisions (the latest decision
of a reviewer overwrites the previous one, keeping its position). -/
def decInsert : List (String × ReviewDecisionState) → String → ReviewDecisionState →
    List (String × ReviewDecisionState)
  | [], k, v => [(k, v)]
  | p :: rest, k, v => if p.1 = k then (k, v) :: rest else p :: decInsert rest k v

/-- `ReviewsService.submit_version_for_review`: submit the draft through the
notes service, then reuse the existing review for the same draft (clearing
prior CHANGES_REQUESTED decisions) or create a fresh one, and append a
SUBMITTED event. -/
def submitVersionForReview (s : RepoState) (version_id : Nat) (submitter_id : String)
    (title description : Option String) (reviewer_ids : Option (List String))
    (summary_comment : Option String) : RepoState × Except Err (Version × Review) :=
  let sub := submitForReview s version_id submitter_id summary_comment
  match sub.2 with
  | Except.error e => (sub.1, Except.error e)
  | Except.ok version =>
    let s1 := sub.1
    match getNote s1 version.note_id with
    | none => (s1, Except.error Err.notFound)
    | some note =>
      let base_version_id : Option Nat :=
        match note.current_version_id with
        | some c => if c ≠ version.id then some c else none
        | none => none
      let existing := getReviewByVersion s1.reviews version.id
      let resolved_title := strOr title version.title
      let resolved_description : Option String :=
        match description with
        | some d => some d
        | none =>
          match existing with
          | some e => e.description
          | none => none
      let resolved_reviewers : List String :=
        match reviewer_ids with
        | some r => r
        | none =>
          match existing with
          | some e => e.reviewer_ids
          | none => []
      match existing with
      | some ex =>
        let patch : ReviewPatch :=
          { title := some resolved_title, description := some resolved_description,
            reviewer_ids := some resolved_reviewers, status := some ReviewStatus.opened,
            updated_at := some s1.clock,
            review_decisions := some (trimChangesRequested ex.review_decisions),
            base_version_id := some base_version_id }
        let ru := updateReviewRepo { s1 with clock := s1.clock + 1 } ex.id patch
        match ru.2 with
        | none => (ru.1, Except.error Err.internal)
        | some review =>
          let s3 :=
            (addReviewEvent ru.1 review.id ReviewEventType.submitted submitter_id
              summary_comment).1
          match getReview s3 review.id with
          | some refreshed => (s3, Except.ok (version, refreshed))
          | none => (s3, Except.ok (version, review))
      | none =>
        let rc :=
          createReviewRepo s1 version.note_id (some version.id) base_version_id
            resolved_title resolved_description submitter_id resolved_reviewers none
        let s3 :=
          (addReviewEvent rc.1 rc.2.id ReviewEventType.submitted submitter_id
            summary_comment).1
        match getReview s3 rc.2.id with
        | some refreshed => (s3, Except.ok (version, refreshed))
        | none => (s3, Except.ok (version, rc.2))

/-- `ReviewsService.comment_on_review`: always allowed except that a MERGED
review requires a non-empty message; appends a COMMENT event. -/
def commentOnReview (s : RepoState) (review_id : Nat) (author_id : String)
    (message : String) : RepoState × Except Err ReviewEvent :=
  match getReview s review_id with
  | none => (s, Except.error Err.notFound)
  | some review =>
    if review.status = ReviewStatus.merged ∧ message = "" then
      (s, Except.error Err.invalidState)
    else
      let r := addReviewEvent s review_id ReviewEventType.comment author_id (some message)
      (r.1, Except.ok r.2)

/-- `ReviewsService.approve_review`: rejected on MERGED/CLOSED reviews and for
the review's own creator; records an APPROVED decision (status stays OPEN)
and appends an APPROVED event. -/
def approveReview (s : RepoState) (review_id : Nat) (reviewer_id : String)
    (comment : Option String) : RepoState × Except Err Review :=
  match getReview s review_id with
  | none => (s, Except.error Err.notFound)
  | some review =>
    if review.status = ReviewStatus.merged ∨ review.status = ReviewStatus.closed then
      (s, Except.error Err.invalidState)
    else if review.created_by = reviewer_id then (s, Except.error Err.forbidden)
    else
      let decisions := decInsert review.review_decisions reviewer_id
        { decision := ReviewDecision.approved, comment := comment, updated_at := s.clock }
      let patch : ReviewPatch :=
        { review_decisions := some decisions, status := some ReviewStatus.opened,
          updated_at := some s.clock }
      let ru := updateReviewRepo { s with clock := s.clock + 1 } review_id patch
      match ru.2 with
      | none => (ru.1, Except.error Err.internal)
      | some updated =>
        let s3 := (addReviewEvent ru.1 review_id ReviewEventType.approved reviewer_id comment).1
        (s3, Except.ok updated)

/-- `ReviewsService.request_changes`: rejected on MERGED reviews; for a
draft-backed review the draft version must resolve and is reverted to DRAFT
with `submitted_by` cleared; records a CHANGES_REQUESTED decision, moves the
review to CHANGES_REQUESTED and appends an event. -/
def requestChanges (s : RepoState) (review_id : Nat) (reviewer_id : String)
    (comment : Option String) : RepoState × Except Err Review :=
  match getReview s review_id with
  | none => (s, Except.error Err.notFound)
  | some review =>
    if review.status = ReviewStatus.merged then (s, Except.error Err.invalidState)
    else if review.draft_version_id.isSome ∧
        (getVersion s (review.draft_version_id.getD 0)).isNone then
      (s, Except.error Err.notFound)
    else
      let decisions := decInsert review.review_decisions reviewer_id
        { decision := ReviewDecision.changesRequested, comment := comment,
          updated_at := s.clock }
      let patch : ReviewPatch :=
        { review_decisions := some decisions, status := some ReviewStatus.changesRequested,
          updated_at := some s.clock }
      let ru := updateReviewRepo { s with clock := s.clock + 1 } review_id patch
      match ru.2 with
      | none => (ru.1, Except.error Err.internal)
      | some updated =>
        let s3 :=
          match review.draft_version_id with
          | some dvid =>
            (updateVersionRepo ru.1 dvid
              { state := some NoteState.draft, submitted_by := some none }).1
          | none => ru.1
        let s4 :=
          (addReviewEvent s3 review_id ReviewEventType.changesRequested reviewer_id comment).1
        (s4, Except.ok updated)

/-- `ReviewsService.close_review`: rejected on MERGED reviews; a draft-backed
review's version (if it still resolves) is reverted to DRAFT with
`submitted_by` cleared; the review moves to CLOSED and a CLOSED event is
appended. -/
def closeReview (s : RepoState) (review_id : Nat) (actor_id : String)
    (message : Option String) : RepoState × Except Err Review :=
  match getReview s review_id with
  | none => (s, Except.error Err.notFound)
  | some review =>
    if review.status = ReviewStatus.merged then (s, Except.error Err.invalidState)
    else
      let s1 :=
        match review.draft_version_id with
        | some dvid =>
          if (getVersion s dvid).isSome then
            (updateVersionRepo s dvid
              { state := some NoteState.draft, submitted_by := some none }).1
          else s
        | none => s
      let patch : ReviewPatch :=
        { status := some ReviewStatus.closed, closed_at := some (some s1.clock),
          updated_at := some s1.clock }
      let ru := updateReviewRepo { s1 with clock := s1.clock + 1 } review_id patch
      match ru.2 with
      | none => (ru.1, Except.error Err.internal)
      | some updated =>
        let s3 := (addReviewEvent ru.1 review_id ReviewEventType.closed actor_id message).1
        (s3, Except.ok updated)

/-- `ReviewsService.reopen_review`: only CLOSED or CHANGES_REQUESTED reviews
may reopen; a draft-backed review's version returns to NEEDS_REVIEW with the
actor as submitter; the review reopens as OPEN. -/
def reopenReview (s : RepoState) (review_id : Nat) (actor_id : String)
    (message : Option String) : RepoState × Except Err Review :=
  match getReview s review_id with
  | none => (s, Except.error Err.notFound)
  | some review =>
    if ¬ (review.status = ReviewStatus.closed ∨ review.status = ReviewStatus.changesRequested)
    then (s, Except.error Err.invalidState)
    else
      let s1 :=
        match review.draft_version_id with
        | some dvid =>
          (updateVersionRepo s dvid
            { state := some NoteState.needsReview, submitted_by := some (some actor_id) }).1
        | none => s
      let patch : ReviewPatch :=
        { status := some ReviewStatus.opened, closed_at := some none,
          updated_at := some s1.clock }
      let ru := updateReviewRepo { s1 with clock := s1.clock + 1 } review_id patch
      match ru.2 with
      | none => (ru.1, Except.error Err.internal)
      | some updated =>
        let s3 := (addReviewEvent ru.1 review_id ReviewEventType.reopened actor_id message).1
        (s3, Except.ok updated)

/-- Resolve the special-review kind in `ReviewsService.merge_review`: the
explicit lower-cased `type` when present and non-empty, else the legacy
title-prefix heuristic. -/
def specialReviewType (review : Review) : Option String :=
  let explicit : Option String :=
    match review.type with
    | some t => if t = "" then none else some t.toLower
    | none => none
  match explicit with
  | some r => some r
  | none =>
    if review.title.toLower.startsWith "delete:" then some "deletion"
    else if review.title.toLower.startsWith "restore:" then some "restore"
    else none

/-- Shared tail of the special-review branch of `merge_review`: mark the
review MERGED (with no merge version), append a MERGED event, and return the
base version as the displayed result (404 when it does not resolve — note
the review mutations above survive that raise). -/
def finishSpecialMerge (s : RepoState) (review : Review) (reviewer_id : String)
    (comment : Option String) : RepoState × Except Err (Review × Version) :=
  let patch : ReviewPatch :=
    { status := some ReviewStatus.merged, merged_at := some (some s.clock),
      merged_by := some (some reviewer_id), merge_version_id := some none,
      updated_at := some s.clock }
  let ru := updateReviewRepo { s with clock := s.clock + 1 } review.id patch
  match ru.2 with
  | none => (ru.1, Except.error Err.internal)
  | some updated =>
    let s3 := (addReviewEvent ru.1 review.id ReviewEventType.merged reviewer_id comment).1
    match review.base_version_id with
    | none => (s3, Except.error Err.notFound)
    | some bvid =>
      match getVersion s3 bvid with
      | none => (s3, Except.error Err.notFound)
      | some bv => (s3, Except.ok (updated, bv))

/-- `ReviewsService.merge_review`: rejected when already MERGED or when the
creator merges their own review. A special review (no draft) soft-deletes or
restores the note according to its resolved type; an ordinary review approves
its draft version. Either way the review is marked MERGED and a MERGED event
is appended. -/
def mergeReview (s : RepoState) (review_id : Nat) (reviewer_id : String)
    (comment : Option String) : RepoState × Except Err (Review × Version) :=
  match getReview s review_id with
  | none => (s, Except.error Err.notFound)
  | some review =>
    if review.status = ReviewStatus.merged then (s, Except.error Err.invalidState)
    else if review.created_by = reviewer_id then (s, Except.error Err.forbidden)
    else
      match review.draft_version_id with
      | none =>
        match specialReviewType review with
        | some "deletion" =>
          finishSpecialMerge (deleteNote s review.note_id reviewer_id) review reviewer_id comment
        | some "restore" =>
          finishSpecialMerge (restoreNote s review.note_id) review reviewer_id comment
        | _ => (s, Except.error Err.invalidState)
      | some dvid =>
        let ap := approveVersion s dvid reviewer_id comment
        match ap.2 with
        | Except.error e => (ap.1, Except.error e)
        | Except.ok version =>
          let s1 := ap.1
          let patch : ReviewPatch :=
            { status := some ReviewStatus.merged, merged_at := some (some s1.clock),
              merged_by := some (some reviewer_id),
              merge_version_id := some (some version.id), updated_at := some s1.clock }
          let ru := updateReviewRepo { s1 with clock := s1.clock + 1 } review_id patch
          match ru.2 with
          | none => (ru.1, Except.error Err.internal)
          | some updated =>
            let s3 :=
              (addReviewEvent ru.1 review_id ReviewEventType.merged reviewer_id comment).1
            (s3, Except.ok (updated, version))

/-- Keyword rank-decay score from `hybrid_search`:
`1.0 - (rank - 1) / max(candidate_limit, 1)` for 1-based ranks. -/
def kwScore (candidate_limit rank : Nat) : Rat :=
  1 - ((rank - 1 : Nat) : Rat) / ((max candidate_limit 1 : Nat) : Rat)

/-- Lookup in the `seen` score dictionary of `hybrid_search`. -/
def seenFind (m : List (Nat × Rat)) (k : Nat) : Option Rat :=
  (findBy (fun p => p.1) m k).map (fun p => p.2)

/-- Insert-or-overwrite in the `seen` score dictionary. -/
def seenSet : List (Nat × Rat) → Nat → Rat → List (Nat × Rat)
  | [], k, v => [(k, v)]
  | p :: rest, k, v => if p.1 = k then (k, v) :: rest else p :: seenSet rest k v

/-- The keyword pass of `hybrid_search`: rank each keyword match (1-based)
and score it by linear rank decay. -/
def kwEntries (candidate_limit : Nat) (ms : List Version) : List (Version × Rat) :=
  ms.enum.map (fun p => (p.2, kwScore candidate_limit (p.1 + 1)))

/-- The `seen` dictionary after a pass: every entry's score keyed by its
version id, later entries overwriting earlier ones. -/
def buildSeen (entries : List (Version × Rat)) : List (Nat × Rat) :=
  entries.foldl (fun m p => seenSet m p.1.id p.2) []

/-- The vector pass of `hybrid_search`: each vector match whose id was
already seen gets the arithmetic mean of the seen score and its own; the
`seen` dictionary is updated with the combined score as the pass proceeds. -/
def vecPass (seen : List (Nat × Rat)) : List (Version × Rat) → List (Version × Rat)
  | [] => []
  | (v, sc) :: rest =>
    let combined :=
      match seenFind seen v.id with
      | some prev => (prev + sc) / 2
      | none => sc
    (v, combined) :: vecPass (seenSet seen v.id combined) rest

/-- Find a deduplicated entry by version id. -/
def dedupFind (l : List (Version × Rat)) (k : Nat) : Option (Version × Rat) :=
  findBy (fun p => p.1.id) l k

/-- Replace the deduplicated entry with the given version id in place. -/
def dedupReplace (l : List (Version × Rat)) (k : Nat) (q : Version × Rat) :
    List (Version × Rat) :=
  updateBy (fun p => p.1.id) l k (fun _ => q)

/-- One step of the final dedup loop of `hybrid_search`: keep the entry with
the strictly larger score for an already-present version id (ties keep the
earlier entry), append unseen ids. -/
def dedupStep (acc : List (Version × Rat)) (p : Version × Rat) : List (Version × Rat) :=
  match dedupFind acc p.1.id with
  | none => acc ++ [p]
  | some q => if q.2 < p.2 then dedupReplace acc p.1.id p else acc

/-- `hybrid_search` from `services/search.py`. The repository is
protocol-abstract, so the keyword-ranked and vector-scored candidate lists it
returns are parameters: `keywordMatches = none` models `keyword is None`
(skipping the keyword pass) and `vectorMatches = none` models a falsy
`vector` argument (skipping the vector pass). The result is deduplicated by
version id keeping the maximum score seen and stably sorted by descending
score, exactly as `sorted(..., reverse=True)`. -/
def hybridSearch (keywordMatches : Option (List Version))
    (vectorMatches : Option (List (Version × Rat))) (candidate_limit : Nat) :
    List (Version × Rat) :=
  let kws :=
    match keywordMatches with
    | some ms => kwEntries candidate_limit ms
    | none => []
  let vecs :=
    match vectorMatches with
    | some vms => vecPass (buildSeen kws) vms
    | none => []
  let deduped := (kws ++ vecs).foldl dedupStep []
  deduped.mergeSort (fun a b => decide (b.2 ≤ a.2))

/-- One workflow operation of `NotesService` / `ReviewsService`, with the
embedding vectors the embedding provider would return supplied as oracle
arguments. -/
inductive Op where
  | createNote (author title content : String) (tags : List String) (vec : List Rat)
  | updateDraft (version_id : Nat) (author : String) (title content : Option String)
      (tags : Option (List String)) (vec : List Rat)
  | submitForReview (version_id : Nat) (submitter : String) (title description : Option String)
      (reviewers : Option (List String)) (comment : Option String)
  | approveVersion (version_id : Nat) (reviewer : String) (comment : Option String)
  | createDraftFromCurrent (note_id : Nat) (author : String) (content : String)
      (title : Option String) (tags : Option (List String)) (vec : List Rat)
  | discardDraft (note_id : Nat) (author : String)
  | voteNote (note_id : Nat) (upvote : Bool)
  | requestNoteDeletion (note_id : Nat) (requester : String) (reason : Option String)
      (reviewers : Option (List String))
  | requestNoteRestore (note_id : Nat) (requester : String) (reason : Option String)
      (reviewers : Option (List String))
  | commentOnReview (review_id : Nat) (author : String) (message : String)
  | approveReview (review_id : Nat) (reviewer : String) (comment : Option String)
  | requestChanges (review_id : Nat) (reviewer : String) (comment : Option String)
  | closeReview (review_id : Nat) (actor : String) (message : Option String)
  | reopenReview (review_id : Nat) (actor : String) (message : Option String)
  | mergeReview (review_id : Nat) (reviewer : String) (comment : Option String)

/-- The state reached by one workflow operation (failed operations keep the
mutations they performed before raising, like the Python services against the
in-memory store). -/
def applyOp (s : RepoState) : Op → RepoState
  | Op.createNote a t c tg v => (createNote s a t c tg v).1
  | Op.updateDraft vid a t c tg v => (updateDraft s vid a t c tg v).1
  | Op.submitForReview vid sub t d rs c => (submitVersionForReview s vid sub t d rs c).1
  | Op.approveVersion vid r c => (approveVersion s vid r c).1
  | Op.createDraftFromCurrent nid a c t tg v => (createDraftFromCurrent s nid a c t tg v).1
  | Op.discardDraft nid a => (discardDraft s nid a).1
  | Op.voteNote nid up => (voteNote s nid up).1
  | Op.requestNoteDeletion nid q r rs => (requestNoteDeletion s nid q r rs).1
  | Op.requestNoteRestore nid q r rs => (requestNoteRestore s nid q r rs).1
  | Op.commentOnReview rid a m => (commentOnReview s rid a m).1
  | Op.approveReview rid r c => (approveReview s rid r c).1
  | Op.requestChanges rid r c => (requestChanges s rid r c).1
  | Op.closeReview rid a m => (closeReview s rid a m).1
  | Op.reopenReview rid a m => (reopenReview s rid a m).1
  | Op.mergeReview rid r c => (mergeReview s rid r c).1

/-- Run a sequence of workflow operations from a state. -/
def runOps (s : RepoState) (ops : List Op) : RepoState :=
  ops.foldl applyOp s

/-- Number of DRAFT versions a note currently has. -/
def draftCount (s : RepoState) (nid : Nat) : Nat :=
  (draftsOf s.versions nid).length

/-- The stored state of a version, when its id resolves. -/
def versionState (s : RepoState) (vid : Nat) : Option NoteState :=
  (getVersion s vid).map Version.state

/-- All ids in use are below the id counter; holds in every reachable state
and rules out collisions with freshly allocated ids. -/
def IdsFresh (s : RepoState) : Prop :=
  (∀ n ∈ s.notes, n.id < s.nextId) ∧ (∀ v ∈ s.versions, v.id < s.nextId)

theorem findBy_append {α : Type} (key : α → Nat) (l₁ l₂ : List α) (k : Nat) :
    findBy key (l₁ ++ l₂) k =
      match findBy key l₁ k with
      | some x => some x
      | none => findBy key l₂ k := by
  induction l₁ with
  | nil => simp [findBy]
  | cons x rest ih =>
    simp only [List.cons_append, findBy]
    split <;> simp [ih]

theorem findBy_map {α : Type} (key : α → Nat) (g : α → α) (l : List α) (k : Nat)
    (h : ∀ x ∈ l, key (g x) = key x) :
    findBy key (l.map g) k = (findBy key l k).map g := by
  induction l with
  | nil => simp [findBy]
  | cons x rest ih =>
    have hx := h x (by simp)
    simp only [List.map_cons, findBy, hx]
    split
    · simp
    · exact ih (fun y hy => h y (by simp [hy]))

theorem findBy_mem {α : Type} (key : α → Nat) (l : List α) (k : Nat) (x : α)
    (h : findBy key l k = some x) : x ∈ l ∧ key x = k := by
  induction l with
  | nil => simp [findBy] at h
  | cons y rest ih =>
    simp only [findBy] at h
    split at h
    · rename_i hk
      cases h
      exact ⟨by simp, hk⟩
    · have := ih h
      exact ⟨by simp [this.1], this.2⟩

theorem findBy_eq_none {α : Type} (key : α → Nat) (l : List α) (k : Nat)
    (h : ∀ x ∈ l, key x ≠ k) : findBy key l k = none := by
  induction l with
  | nil => rfl
  | cons y rest ih =>
    simp only [findBy]
    rw [if_neg (h y (by simp))]
    exact ih (fun x hx => h x (by simp [hx]))

theorem findBy_of_mem_nodup {α : Type} (key : α → Nat) (l : List α) (x : α)
    (hnd : (l.map key).Nodup) (hx : x ∈ l) : findBy key l (key x) = some x := by
  induction l with
  | nil => simp at hx
  | cons y rest ih =>
    simp only [List.map_cons, List.nodup_cons] at hnd
    rcases List.mem_cons.mp hx with hxy | hxr
    · subst hxy
      simp [findBy]
    · simp only [findBy]
      split
      · rename_i hk
        exfalso
        exact hnd.1 (hk ▸ List.mem_map_of_mem key hxr)
      · exact ih hnd.2 hxr

theorem mem_eq_of_nodup_key {α : Type} (key : α → Nat) (l : List α) (x y : α)
    (hnd : (l.map key).Nodup) (hx : x ∈ l) (hy : y ∈ l) (hk : key x = key y) : x = y := by
  have h1 := findBy_of_mem_nodup key l x hnd hx
  have h2 := findBy_of_mem_nodup key l y hnd hy
  rw [hk, h2] at h1
  exact (Option.some.injEq _ _ ▸ h1).symm

theorem findBy_updateBy_self {α : Type} (key : α → Nat) (l : List α) (k : Nat) (f : α → α)
    (hf : ∀ x, key x = k → key (f x) = k) :
    findBy key (updateBy key l k f) k =
      (findBy key l k).map (fun x => if key x = k then f x else x) := by
  unfold updateBy
  refine findBy_map key _ l k (fun x _ => ?_)
  by_cases hx : key x = k
  · simp [hx, hf x hx]
  · simp [hx]

theorem findBy_updateBy_other {α : Type} (key : α → Nat) (l : List α) (k k₂ : Nat) (f : α → α)
    (hf : ∀ x, key x = k → key (f x) = k) (hne : k₂ ≠ k) :
    findBy key (updateBy key l k f) k₂ = findBy key l k₂ := by
  unfold updateBy
  rw [findBy_map key _ l k₂ (fun x _ => by by_cases hx : key x = k <;> simp [hx, hf])]
  cases h : findBy key l k₂ with
  | none => rfl
  | some x =>
    have hx := (findBy_mem key l k₂ x h).2
    simp [hx, hne]

theorem versionsOf_map (g : Version → Version) (l : List Version) (nid : Nat)
    (h : ∀ v ∈ l, (g v).note_id = v.note_id) :
    versionsOf (l.map g) nid = (versionsOf l nid).map g := by
  induction l with
  | nil => rfl
  | cons v rest ih =>
    have hv := h v (by simp)
    simp only [List.map_cons, versionsOf, hv]
    split
    · simp only [List.map_cons]
      rw [ih (fun y hy => h y (by simp [hy]))]
    · exact ih (fun y hy => h y (by simp [hy]))

theorem draftsOf_map (g : Version → Version) (l : List Version) (nid : Nat)
    (h : ∀ v ∈ l, (g v).note_id = v.note_id ∧ (g v).state = v.state) :
    draftsOf (l.map g) nid = (draftsOf l nid).map g := by
  induction l with
  | nil => rfl
  | cons v rest ih =>
    have hv := h v (by simp)
    simp only [List.map_cons, draftsOf, hv.1, hv.2]
    split
    · simp only [List.map_cons]
      rw [ih (fun y hy => h y (by simp [hy]))]
    · exact ih (fun y hy => h y (by simp [hy]))

theorem draftsOf_append (l₁ l₂ : List Version) (nid : Nat) :
    draftsOf (l₁ ++ l₂) nid = draftsOf l₁ nid ++ draftsOf l₂ nid := by
  induction l₁ with
  | nil => rfl
  | cons v rest ih =>
    simp only [List.cons_append, draftsOf]
    split <;> simp [ih]

theorem draftsOf_mem (l : List Version) (nid : Nat) (v : Version) (h : v ∈ draftsOf l nid) :
    v ∈ l ∧ v.note_id = nid ∧ v.state = NoteState.draft := by
  induction l with
  | nil => simp [draftsOf] at h
  | cons y rest ih =>
    simp only [draftsOf] at h
    split at h
    · rename_i hc
      rcases List.mem_cons.mp h with hv | hv
      · subst hv
        exact ⟨by simp, hc⟩
      · have := ih hv
        exact ⟨by simp [this.1], this.2⟩
    · have := ih h
      exact ⟨by simp [this.1], this.2⟩

theorem versionsOf_mem (l : List Version) (nid : Nat) (v : Version) (h : v ∈ versionsOf l nid) :
    v ∈ l ∧ v.note_id = nid := by
  induction l with
  | nil => simp [versionsOf] at h
  | cons y rest ih =>
    simp only [versionsOf] at h
    split at h
    · rename_i hc
      rcases List.mem_cons.mp h with hv | hv
      · subst hv
        exact ⟨by simp, hc⟩
      · have := ih hv
        exact ⟨by simp [this.1], this.2⟩
    · have := ih h
      exact ⟨by simp [this.1], this.2⟩

theorem pickStep_ne_none (acc : Option Version) (v : Version) : pickStep acc v ≠ none := by
  cases acc with
  | none => simp [pickStep]
  | some e =>
    by_cases hlt : e.version_index < v.version_index <;> simp [pickStep, hlt]

theorem foldl_pickStep_map (g : Version → Version) (l : List Version)
    (h : ∀ v ∈ l, (g v).version_index = v.version_index) (acc : Option Version)
    (hacc : ∀ e, acc = some e → (g e).version_index = e.version_index) :
    (l.map g).foldl pickStep (acc.map g) = (l.foldl pickStep acc).map g := by
  induction l generalizing acc with
  | nil => simp
  | cons v rest ih =>
    have hv := h v (by simp)
    have hstep : pickStep (acc.map g) (g v) = (pickStep acc v).map g := by
      cases acc with
      | none => rfl
      | some e =>
        have he := hacc e rfl
        by_cases hlt : e.version_index < v.version_index <;>
          simp [pickStep, hv, he, hlt]
    simp only [List.map_cons, List.foldl_cons, hstep]
    refine ih (fun y hy => h y (by simp [hy])) (pickStep acc v) (fun e he => ?_)
    cases acc with
    | none =>
      simp only [pickStep] at he
      cases he
      exact hv
    | some e₀ =>
      by_cases hlt : e₀.version_index < v.version_index <;>
        simp [pickStep, hlt] at he
      · cases he
        exact hv
      · cases he
        exact hacc _ rfl

theorem pickMaxIndex_map (g : Version → Version) (l : List Version)
    (h : ∀ v ∈ l, (g v).version_index = v.version_index) :
    pickMaxIndex (l.map g) = (pickMaxIndex l).map g := by
  unfold pickMaxIndex
  have := foldl_pickStep_map g l h none (fun e he => by cases he)
  simpa using this

theorem foldl_pickStep_mem (l : List Version) (acc : Option Version) (v : Version)
    (h : l.foldl pickStep acc = some v) : acc = some v ∨ v ∈ l := by
  induction l generalizing acc with
  | nil => exact Or.inl h
  | cons y rest ih =>
    simp only [List.foldl_cons] at h
    rcases ih (pickStep acc y) h with hs | hm
    · cases acc with
      | none =>
        simp only [pickStep] at hs
        cases hs
        exact Or.inr (by simp)
      | some e =>
        simp only [pickStep] at hs
        split at hs
        · cases hs
          exact Or.inr (by simp)
        · exact Or.inl hs
    · exact Or.inr (by simp [hm])

theorem pickMaxIndex_mem (l : List Version) (v : Version) (h : pickMaxIndex l = some v) :
    v ∈ l := by
  rcases foldl_pickStep_mem l none v h with hs | hm
  · cases hs
  · exact hm

theorem foldl_pickStep_eq_none (l : List Version) (acc : Option Version)
    (h : l.foldl pickStep acc = none) : acc = none ∧ l = [] := by
  cases l with
  | nil => exact ⟨h, rfl⟩
  | cons y rest =>
    exfalso
    simp only [List.foldl_cons] at h
    induction rest generalizing acc y with
    | nil => exact pickStep_ne_none _ _ h
    | cons z more ih => exact ih (pickStep acc y) z h

theorem pickMaxIndex_eq_none (l : List Version) (h : pickMaxIndex l = none) : l = [] :=
  (foldl_pickStep_eq_none l none h).2

theorem getDraftForNote_mem (s : RepoState) (nid : Nat) (v : Version)
    (h : getDraftForNote s nid = some v) :
    v ∈ s.versions ∧ v.note_id = nid ∧ v.state = NoteState.draft := by
  have hm := pickMaxIndex_mem _ _ h
  have := draftsOf_mem s.versions nid v hm
  exact this

theorem updateVersionRepo_notes (s : RepoState) (vid : Nat) (p : VersionPatch) :
    (updateVersionRepo s vid p).1.notes = s.notes := by
  unfold updateVersionRepo
  split <;> rfl

theorem updateReviewRepo_notes (s : RepoState) (rid : Nat) (p : ReviewPatch) :
    (updateReviewRepo s rid p).1.notes = s.notes := by
  unfold updateReviewRepo
  split <;> rfl

theorem updateReviewRepo_versions (s : RepoState) (rid : Nat) (p : ReviewPatch) :
    (updateReviewRepo s rid p).1.versions = s.versions := by
  unfold updateReviewRepo
  split <;> rfl

theorem addReviewEvent_notes (s : RepoState) (rid : Nat) (ty : ReviewEventType)
    (a : String) (m : Option String) : (addReviewEvent s rid ty a m).1.notes = s.notes := rfl

theorem addReviewEvent_versions (s : RepoState) (rid : Nat) (ty : ReviewEventType)
    (a : String) (m : Option String) :
    (addReviewEvent s rid ty a m).1.versions = s.versions := rfl

theorem createReviewRepo_notes (s : RepoState) (nid : Nat) (dv bv : Option Nat) (ti : String)
    (de : Option String) (cb : String) (rs : List String) (ty : Option String) :
    (createReviewRepo s nid dv bv ti de cb rs ty).1.notes = s.notes := rfl

theorem createReviewRepo_versions (s : RepoState) (nid : Nat) (dv bv : Option Nat) (ti : String)
    (de : Option String) (cb : String) (rs : List String) (ty : Option String) :
    (createReviewRepo s nid dv bv ti de cb rs ty).1.versions = s.versions := rfl

theorem createNewVersion_notes (s : RepoState) (nid : Nat) (b : Version) (a c : String)
    (t : Option String) (tg : Option (List String)) (vec : Option (List Rat)) :
    (createNewVersion s nid b a c t tg vec).1.notes = s.notes := rfl

theorem updateDraft_notes (s : RepoState) (vid : Nat) (a : String) (t c : Option String)
    (tg : Option (List String)) (vec : List Rat) :
    (updateDraft s vid a t c tg vec).1.notes = s.notes := by
  unfold updateDraft
  split
  · rfl
  · split
    · rfl
    · split
      · rfl
      · split
        all_goals
          dsimp only
          split <;> apply updateVersionRepo_notes

theorem submitForReview_notes (s : RepoState) (vid : Nat) (sub : String)
    (rc : Option String) : (submitForReview s vid sub rc).1.notes = s.notes := by
  unfold submitForReview
  split
  · rfl
  · split
    · rfl
    · split
      all_goals
        dsimp only
        split <;> apply updateVersionRepo_notes

theorem createDraftFromCurrent_notes (s : RepoState) (nid : Nat) (a c : String)
    (t : Option String) (tg : Option (List String)) (vec : List Rat) :
    (createDraftFromCurrent s nid a c t tg vec).1.notes = s.notes := by
  unfold createDraftFromCurrent
  split
  · rfl
  · split
    · rfl
    · split
      · rfl
      · split
        · dsimp only
          split <;> apply updateVersionRepo_notes
        · apply createNewVersion_notes

theorem commentOnReview_notes (s : RepoState) (rid : Nat) (a m : String) :
    (commentOnReview s rid a m).1.notes = s.notes := by
  unfold commentOnReview
  split
  · rfl
  · split
    · rfl
    · apply addReviewEvent_notes

theorem approveReview_notes (s : RepoState) (rid : Nat) (rv : String) (c : Option String) :
    (approveReview s rid rv c).1.notes = s.notes := by
  unfold approveReview
  split
  · rfl
  · split
    · rfl
    · split
      · rfl
      · dsimp only
        split
        · apply updateReviewRepo_notes
        · rw [addReviewEvent_notes]
          apply updateReviewRepo_notes

theorem requestChanges_notes (s : RepoState) (rid : Nat) (rv : String) (c : Option String) :
    (requestChanges s rid rv c).1.notes = s.notes := by
  unfold requestChanges
  split
  · rfl
  · split
    · rfl
    · split
      · rfl
      · dsimp only
        split
        · apply updateReviewRepo_notes
        · rw [addReviewEvent_notes]
          split
          · rw [updateVersionRepo_notes]
            apply updateReviewRepo_notes
          · apply updateReviewRepo_notes

theorem closeReview_notes (s : RepoState) (rid : Nat) (a : String) (m : Option String) :
    (closeReview s rid a m).1.notes = s.notes := by
  unfold closeReview
  split
  · rfl
  · split
    · rfl
    · dsimp only
      split
      · rw [updateReviewRepo_notes]
        dsimp only
        split
        · split <;> simp [updateVersionRepo_notes]
        · rfl
      · rw [addReviewEvent_notes, updateReviewRepo_notes]
        dsimp only
        split
        · split <;> simp [updateVersionRepo_notes]
        · rfl

theorem reopenReview_notes (s : RepoState) (rid : Nat) (a : String) (m : Option String) :
    (reopenReview s rid a m).1.notes = s.notes := by
  unfold reopenReview
  split
  · rfl
  · split
    · rfl
    · dsimp only
      split
      · rw [updateReviewRepo_notes]
        dsimp only
        split <;> simp [updateVersionRepo_notes]
      · rw [addReviewEvent_notes, updateReviewRepo_notes]
        dsimp only
        split <;> simp [updateVersionRepo_notes]

theorem requestNoteDeletion_notes (s : RepoState) (nid : Nat) (q : String)
    (re : Option String) (rs : Option (List String)) :
    (requestNoteDeletion s nid q re rs).1.notes = s.notes := by
  unfold requestNoteDeletion
  split
  · rfl
  · split
    · rfl
    · dsimp only
      rw [addReviewEvent_notes]
      apply createReviewRepo_notes

theorem requestNoteRestore_notes (s : RepoState) (nid : Nat) (q : String)
    (re : Option String) (rs : Option (List String)) :
    (requestNoteRestore s nid q re rs).1.notes = s.notes := by
  unfold requestNoteRestore
  split
  · rfl
  · dsimp only
    rw [addReviewEvent_notes]
    apply createReviewRepo_notes

theorem submitVersionForReview_notes (s : RepoState) (vid : Nat) (sub : String)
    (t d : Option String) (rs : Option (List String)) (sc : Option String) :
    (submitVersionForReview s vid sub t d rs sc).1.notes = s.notes := by
  have h1 := submitForReview_notes s vid sub sc
  unfold submitVersionForReview
  rcases hsub : submitForReview s vid sub sc with ⟨s1, res⟩
  rw [hsub] at h1
  repeat' (first | split | dsimp only)
  all_goals
    first
    | exact h1
    | (rw [updateReviewRepo_notes]
       exact h1)
    | (rw [addReviewEvent_notes, updateReviewRepo_notes]
       exact h1)

theorem updateVersionRepo_found (s : RepoState) (vid : Nat) (p : VersionPatch) (v : Version)
    (hv : getVersion s vid = some v) :
    updateVersionRepo s vid p =
      ({ s with versions := updateBy Version.id s.versions vid (fun _ => applyVersionPatch v p) },
        some (applyVersionPatch v p)) := by
  unfold updateVersionRepo
  rw [hv]

theorem updateReviewRepo_found (s : RepoState) (rid : Nat) (p : ReviewPatch) (r : Review)
    (hr : getReview s rid = some r) :
    updateReviewRepo s rid p =
      ({ s with reviews := updateBy Review.id s.reviews rid (fun _ => applyReviewPatch r p) },
        some (applyReviewPatch r p)) := by
  unfold updateReviewRepo
  rw [hr]

theorem findBy_updateBy_const {α : Type} (key : α → Nat) (l : List α) (k : Nat) (x' : α)
    (hk : key x' = k) (x : α) (h : findBy key l k = some x) :
    findBy key (updateBy key l k (fun _ => x')) k = some x' := by
  rw [findBy_updateBy_self key l k _ (fun y _ => hk), h]
  have := (findBy_mem key l k x h).2
  simp [this]

theorem applyVersionPatch_id (v : Version) (p : VersionPatch) :
    (applyVersionPatch v p).id = v.id := rfl

theorem applyReviewPatch_id (r : Review) (p : ReviewPatch) :
    (applyReviewPatch r p).id = r.id := rfl

/-- C7: `update_draft` fails NotFound for every version id that does not
resolve; fails InvalidState for every APPROVED version; fails Forbidden for
every DRAFT version when the calling author differs from the version's
creator; and succeeds on every NEEDS_REVIEW version regardless of whether the
caller is the creator. -/
theorem updateDraft_error_taxonomy (s : RepoState) (vid : Nat) (author : String)
    (t c : Option String) (tg : Option (List String)) (vec : List Rat) :
    (getVersion s vid = none →
      (updateDraft s vid author t c tg vec).2 = Except.error Err.notFound) ∧
    (∀ v, getVersion s vid = some v → v.state = NoteState.approved →
      (updateDraft s vid author t c tg vec).2 = Except.error Err.invalidState) ∧
    (∀ v, getVersion s vid = some v → v.state = NoteState.draft → v.created_by ≠ author →
      (updateDraft s vid author t c tg vec).2 = Except.error Err.forbidden) ∧
    (∀ v, getVersion s vid = some v → v.state = NoteState.needsReview →
      ∃ v', (updateDraft s vid author t c tg vec).2 = Except.ok v') := by
  refine ⟨fun h => ?_, fun v hv hst => ?_, fun v hv hst hne => ?_, fun v hv hst => ?_⟩
  · simp [updateDraft, h]
  · simp [updateDraft, hv, hst]
  · simp [updateDraft, hv, hst, hne]
  · simp [updateDraft, updateVersionRepo, hv, hst]

/-- Witness for C7 at a concrete store: a fresh note's draft (created by
"alice") is rejected with Forbidden when "bob" edits it, and an unknown
version id gives NotFound. -/
theorem updateDraft_error_taxonomy_witness :
    (updateDraft (runOps initState [Op.createNote "alice" "T" "C" [] []]) 2 "bob"
      (some "X") none none []).2 = Except.error Err.forbidden ∧
    (updateDraft (runOps initState [Op.createNote "alice" "T" "C" [] []]) 9 "bob"
      (some "X") none none []).2 = Except.error Err.notFound := by
  constructor
  · exact (updateDraft_error_taxonomy (runOps initState [Op.createNote "alice" "T" "C" [] []])
      2 "bob" (some "X") none none []).2.2.1
      { id := 2, note_id := 1, version_index := 0, title := "T", content := "C", tags := [],
        state := NoteState.draft, created_at := 0, created_by := "alice", vector := some [] }
      (by decide) (by decide) (by decide)
  · exact (updateDraft_error_taxonomy (runOps initState [Op.createNote "alice" "T" "C" [] []])
      9 "bob" (some "X") none none []).1 (by decide)

/-- C6: `request_changes` on an ordinary (draft-backed) review that is not
MERGED and whose draft version is in state NEEDS_REVIEW reverts that version
to DRAFT, clears its `submitted_by`, and moves the review to
CHANGES_REQUESTED. -/
theorem requestChanges_reverts_draft (s : RepoState) (rid : Nat) (reviewer : String)
    (c : Option String) (r : Review) (dvid : Nat) (v : Version)
    (hr : getReview s rid = some r)
    (hdv : r.draft_version_id = some dvid)
    (hst : r.status ≠ ReviewStatus.merged)
    (hv : getVersion s dvid = some v)
    (_hvs : v.state = NoteState.needsReview) :
    ∃ v' r',
      getVersion (requestChanges s rid reviewer c).1 dvid = some v' ∧
      v'.state = NoteState.draft ∧ v'.submitted_by = none ∧
      getReview (requestChanges s rid reviewer c).1 rid = some r' ∧
      r'.status = ReviewStatus.changesRequested := by
  have hvid : v.id = dvid := (findBy_mem _ _ _ _ hv).2
  have hrid : r.id = rid := (findBy_mem _ _ _ _ hr).2
  unfold requestChanges
  rw [hr]
  dsimp only
  rw [if_neg hst, if_neg (by simp [hdv, hv])]
  rw [updateReviewRepo_found]
  case hr => exact hr
  dsimp only
  rw [hdv]
  dsimp only
  rw [updateVersionRepo_found]
  case hv => exact hv
  dsimp only [addReviewEvent, getVersion, getReview]
  refine ⟨_, _,
    findBy_updateBy_const Version.id _ dvid _ (by simp [applyVersionPatch_id, hvid]) v
      (show findBy Version.id _ dvid = some v from hv), ?_, ?_,
    findBy_updateBy_const Review.id _ rid _ (by simp [applyReviewPatch_id, hrid]) r
      (show findBy Review.id _ rid = some r from hr), ?_⟩
  · simp [applyVersionPatch]
  · simp [applyVersionPatch]
  · simp [applyReviewPatch]

/-- Witness for C6: in a store where version 2 of note 1 was submitted for
review (review 3, state NEEDS_REVIEW), `request_changes` by "bob" leaves
version 2 as a DRAFT with no submitter and review 3 CHANGES_REQUESTED. -/
theorem requestChanges_reverts_draft_witness :
    ∃ v' r',
      getVersion (requestChanges (runOps initState
        [Op.createNote "alice" "T" "C" [] [],
         Op.submitForReview 2 "alice" none none none none]) 3 "bob" none).1 2 = some v' ∧
      v'.state = NoteState.draft ∧ v'.submitted_by = none ∧
      getReview (requestChanges (runOps initState
        [Op.createNote "alice" "T" "C" [] [],
         Op.submitForReview 2 "alice" none none none none]) 3 "bob" none).1 3 = some r' ∧
      r'.status = ReviewStatus.changesRequested := by
  refine requestChanges_reverts_draft _ 3 "bob" none
    { id := 3, note_id := 1, draft_version_id := some 2, base_version_id := none,
      title := "T", description := none, created_by := "alice", reviewer_ids := [],
      status := ReviewStatus.opened, review_decisions := [], created_at := 1,
      updated_at := 1 }
    2
    { id := 2, note_id := 1, version_index := 0, title := "T", content := "C", tags := [],
      state := NoteState.needsReview, created_at := 0, created_by := "alice",
      submitted_by := some "alice", vector := some [] }
    ?_ ?_ ?_ ?_ ?_ <;> decide

/-- C8 counterexample: the claim says commenting has no precondition and
always succeeds, but commenting on a MERGED review with the empty message is
rejected with a 400 error (`Message is required after merge`). -/
theorem comment_on_merged_empty_message_fails :
    (getReview (runOps initState
      [Op.createNote "alice" "T" "C" [] [],
       Op.submitForReview 2 "alice" none none none none,
       Op.mergeReview 3 "bob" none]) 3).map Review.status = some ReviewStatus.merged ∧
    (commentOnReview (runOps initState
      [Op.createNote "alice" "T" "C" [] [],
       Op.submitForReview 2 "alice" none none none none,
       Op.mergeReview 3 "bob" none]) 3 "carol" "").2 = Except.error Err.invalidState := by
  constructor
  · decide
  · decide

/-- C8 amended: commenting on an existing review always succeeds and appends
a COMMENT event to its timeline, except in the single case of a MERGED review
with an empty message, which is rejected before any mutation. -/
theorem commentOnReview_appends_event (s : RepoState) (rid : Nat) (author message : String)
    (r : Review) (hr : getReview s rid = some r) :
    (¬ (r.status = ReviewStatus.merged ∧ message = "") →
      ∃ ev, (commentOnReview s rid author message).2 = Except.ok ev ∧
        ev.event_type = ReviewEventType.comment ∧ ev.review_id = rid ∧
        ev.author_id = author ∧ ev.message = some message ∧
        (commentOnReview s rid author message).1.events = s.events ++ [ev]) ∧
    (r.status = ReviewStatus.merged → message = "" →
      (commentOnReview s rid author message).2 = Except.error Err.invalidState ∧
      (commentOnReview s rid author message).1 = s) := by
  constructor
  · intro h
    unfold commentOnReview
    rw [hr]
    dsimp only
    rw [if_neg h]
    exact ⟨_, rfl, rfl, rfl, rfl, rfl, rfl⟩
  · intro h1 h2
    unfold commentOnReview
    rw [hr]
    dsimp only
    rw [if_pos ⟨h1, h2⟩]
    exact ⟨rfl, rfl⟩

/-- Witness for the amended C8: a comment on an open review appends a COMMENT
event. -/
theorem commentOnReview_appends_event_witness :
    ∃ ev, (commentOnReview (runOps initState
      [Op.createNote "alice" "T" "C" [] [],
       Op.submitForReview 2 "alice" none none none none]) 3 "carol" "hi").2 =
        Except.ok ev ∧
      ev.event_type = ReviewEventType.comment ∧ ev.review_id = 3 ∧
      ev.author_id = "carol" ∧ ev.message = some "hi" ∧
      (commentOnReview (runOps initState
        [Op.createNote "alice" "T" "C" [] [],
         Op.submitForReview 2 "alice" none none none none]) 3 "carol" "hi").1.events =
        (runOps initState
          [Op.createNote "alice" "T" "C" [] [],
           Op.submitForReview 2 "alice" none none none none]).events ++ [ev] := by
  refine (commentOnReview_appends_event _ 3 "carol" "hi"
    { id := 3, note_id := 1, draft_version_id := some 2, base_version_id := none,
      title := "T", description := none, created_by := "alice", reviewer_ids := [],
      status := ReviewStatus.opened, review_decisions := [], created_at := 1,
      updated_at := 1 }
    (by decide)).1 (by decide)

/-- C4 counterexample: for a MERGED review whose creator acts as the
reviewer, `approve_review` and `merge_review` fail with InvalidState (400,
the status guard fires first), not with Forbidden as the claim states. -/
theorem self_approve_on_merged_review_not_forbidden :
    (getReview (runOps initState
      [Op.createNote "alice" "T" "C" [] [],
       Op.submitForReview 2 "alice" none none none none,
       Op.mergeReview 3 "bob" none]) 3).map Review.created_by = some "alice" ∧
    (getReview (runOps initState
      [Op.createNote "alice" "T" "C" [] [],
       Op.submitForReview 2 "alice" none none none none,
       Op.mergeReview 3 "bob" none]) 3).map Review.status = some ReviewStatus.merged ∧
    (approveReview (runOps initState
      [Op.createNote "alice" "T" "C" [] [],
       Op.submitForReview 2 "alice" none none none none,
       Op.mergeReview 3 "bob" none]) 3 "alice" none).2 = Except.error Err.invalidState ∧
    (mergeReview (runOps initState
      [Op.createNote "alice" "T" "C" [] [],
       Op.submitForReview 2 "alice" none none none none,
       Op.mergeReview 3 "bob" none]) 3 "alice" none).2 = Except.error Err.invalidState := by
  refine ⟨by decide, by decide, by decide, by decide⟩

/-- C4 amended: when the review is not already MERGED (and, for approval, not
CLOSED — those states fail the status guard with InvalidState instead), the
creator acting as reviewer is rejected with Forbidden and the whole store is
left unchanged. -/
theorem self_approve_merge_forbidden (s : RepoState) (rid : Nat) (r : Review)
    (c : Option String) (hr : getReview s rid = some r) :
    (r.status ≠ ReviewStatus.merged → r.status ≠ ReviewStatus.closed →
      approveReview s rid r.created_by c = (s, Except.error Err.forbidden)) ∧
    (r.status ≠ ReviewStatus.merged →
      mergeReview s rid r.created_by c = (s, Except.error Err.forbidden)) := by
  constructor
  · intro h1 h2
    unfold approveReview
    rw [hr]
    dsimp only
    rw [if_neg (by simp [h1, h2]), if_pos rfl]
  · intro h1
    unfold mergeReview
    rw [hr]
    dsimp only
    rw [if_neg h1, if_pos rfl]

/-- Witness for the amended C4: on an OPEN review created by "alice", both
self-approval and self-merge return Forbidden and do not change the store. -/
theorem self_approve_merge_forbidden_witness :
    approveReview (runOps initState
      [Op.createNote "alice" "T" "C" [] [],
       Op.submitForReview 2 "alice" none none none none]) 3 "alice" none =
      ((runOps initState
        [Op.createNote "alice" "T" "C" [] [],
         Op.submitForReview 2 "alice" none none none none]),
        Except.error Err.forbidden) ∧
    mergeReview (runOps initState
      [Op.createNote "alice" "T" "C" [] [],
       Op.submitForReview 2 "alice" none none none none]) 3 "alice" none =
      ((runOps initState
        [Op.createNote "alice" "T" "C" [] [],
         Op.submitForReview 2 "alice" none none none none]),
        Except.error Err.forbidden) := by
  have h := self_approve_merge_forbidden (runOps initState
      [Op.createNote "alice" "T" "C" [] [],
       Op.submitForReview 2 "alice" none none none none]) 3
    { id := 3, note_id := 1, draft_version_id := some 2, base_version_id := none,
      title := "T", description := none, created_by := "alice", reviewer_ids := [],
      status := ReviewStatus.opened, review_decisions := [], created_at := 1,
      updated_at := 1 }
    none (by decide)
  exact ⟨h.1 (by decide) (by decide), h.2 (by decide)⟩

theorem finishSpecialMerge_state (s : RepoState) (rv : Review) (reviewer : String)
    (c : Option String) (r0 : Review) (hr : getReview s rv.id = some r0) :
    (finishSpecialMerge s rv reviewer c).1.notes = s.notes ∧
    (finishSpecialMerge s rv reviewer c).1.versions = s.versions ∧
    getReview (finishSpecialMerge s rv reviewer c).1 rv.id =
      some (applyReviewPatch r0
        { status := some ReviewStatus.merged, merged_at := some (some s.clock),
          merged_by := some (some reviewer), merge_version_id := some none,
          updated_at := some s.clock }) := by
  unfold finishSpecialMerge
  dsimp only
  rw [updateReviewRepo_found]
  case hr => exact hr
  dsimp only
  repeat' split
  all_goals refine ⟨rfl, rfl, ?_⟩
  all_goals
    exact findBy_updateBy_const Review.id _ _ _
      (by simp [applyReviewPatch_id, (findBy_mem _ _ _ _ hr).2]) r0
      (show findBy Review.id _ rv.id = some r0 from hr)

unseal String.mapAux in
/-- C5: merging a not-yet-merged special review of type "deletion" (empty
draft sentinel) as a reviewer distinct from its creator stamps both
`deleted_at` and `deleted_by` on the note, marks the review MERGED, and
leaves the note's stored versions — and hence its queryable version
listing — exactly as they were. -/
theorem mergeReview_deletion_effects (s : RepoState) (rid : Nat) (reviewer : String)
    (c : Option String) (r : Review) (n : Note)
    (hr : getReview s rid = some r)
    (hdv : r.draft_version_id = none)
    (hty : r.type = some "deletion")
    (hst : r.status ≠ ReviewStatus.merged)
    (hcr : r.created_by ≠ reviewer)
    (hn : getNote s r.note_id = some n) :
    ∃ n' r',
      getNote (mergeReview s rid reviewer c).1 r.note_id = some n' ∧
      n'.deleted_at.isSome ∧ n'.deleted_by = some reviewer ∧
      getReview (mergeReview s rid reviewer c).1 rid = some r' ∧
      r'.status = ReviewStatus.merged ∧
      (mergeReview s rid reviewer c).1.versions = s.versions ∧
      listNoteVersions (mergeReview s rid reviewer c).1 r.note_id =
        listNoteVersions s r.note_id := by
  have hsp : specialReviewType r = some "deletion" := by
    unfold specialReviewType
    rw [hty]
    dsimp only
    rw [if_neg (by decide)]
    dsimp only
    decide
  have hnid : n.id = r.note_id := (findBy_mem _ _ _ _ hn).2
  have hrid2 : r.id = rid := (findBy_mem _ _ _ _ hr).2
  have hfin := finishSpecialMerge_state (deleteNote s r.note_id reviewer) r reviewer c r
    (by rw [hrid2]; exact hr)
  unfold mergeReview
  rw [hr]
  dsimp only
  rw [if_neg hst, if_neg hcr, hdv]
  dsimp only
  rw [hsp]
  split
  · have hnotes : getNote (finishSpecialMerge (deleteNote s r.note_id reviewer) r reviewer c).1
        r.note_id =
        some { n with deleted_at := some s.clock, deleted_by := some reviewer } := by
      unfold getNote
      rw [hfin.1]
      rw [show (deleteNote s r.note_id reviewer).notes =
          updateBy Note.id s.notes r.note_id
            (fun n0 => { n0 with deleted_at := some s.clock, deleted_by := some reviewer })
          from rfl]
      rw [findBy_updateBy_self Note.id s.notes r.note_id
        (fun n0 => { n0 with deleted_at := some s.clock, deleted_by := some reviewer })
        (fun x hx => hx)]
      rw [show findBy Note.id s.notes r.note_id = some n from hn]
      simp [hnid]
    have hrev := hfin.2.2
    rw [hrid2] at hrev
    exact ⟨_, _, hnotes, rfl, rfl, hrev, by simp [applyReviewPatch], hfin.2.1,
      by unfold listNoteVersions; rw [hfin.2.1]; rfl⟩
  · rename_i heq
    simp at heq
  · rename_i hne _
    exact absurd rfl hne

/-- Witness for C5: merging the deletion review created by "alice" for note 1
as "bob" soft-deletes the note, merges the review, and keeps the version
history. -/
theorem mergeReview_deletion_effects_witness :
    ∃ n' r',
      getNote (mergeReview (runOps initState
        [Op.createNote "alice" "T" "C" [] [],
         Op.requestNoteDeletion 1 "alice" none none]) 3 "bob" none).1 1 = some n' ∧
      n'.deleted_at.isSome ∧ n'.deleted_by = some "bob" ∧
      getReview (mergeReview (runOps initState
        [Op.createNote "alice" "T" "C" [] [],
         Op.requestNoteDeletion 1 "alice" none none]) 3 "bob" none).1 3 = some r' ∧
      r'.status = ReviewStatus.merged ∧
      (mergeReview (runOps initState
        [Op.createNote "alice" "T" "C" [] [],
         Op.requestNoteDeletion 1 "alice" none none]) 3 "bob" none).1.versions =
        (runOps initState
          [Op.createNote "alice" "T" "C" [] [],
           Op.requestNoteDeletion 1 "alice" none none]).versions ∧
      listNoteVersions (mergeReview (runOps initState
        [Op.createNote "alice" "T" "C" [] [],
         Op.requestNoteDeletion 1 "alice" none none]) 3 "bob" none).1 1 =
        listNoteVersions (runOps initState
          [Op.createNote "alice" "T" "C" [] [],
           Op.requestNoteDeletion 1 "alice" none none]) 1 := by
  exact mergeReview_deletion_effects (runOps initState
      [Op.createNote "alice" "T" "C" [] [],
       Op.requestNoteDeletion 1 "alice" none none]) 3 "bob" none
    { id := 3, note_id := 1, draft_version_id := none, base_version_id := some 2,
      title := "Delete: T", description := some "Request to delete note T",
      created_by := "alice", reviewer_ids := [], status := ReviewStatus.opened,
      review_decisions := [], created_at := 1, updated_at := 1, type := some "deletion" }
    { id := 1, title := "T", created_at := 0, created_by := "alice", tags := [],
      current_version_id := some 2 }
    (by decide) (by decide) (by decide) (by decide) (by decide) (by decide)

/-- C1 counterexample: immediately after `create_note` the note's
`current_version_id` is set (to the fresh version-0 row), yet that version is
a DRAFT, not APPROVED — the invariant fails at the very first point at which
the field is non-null. -/
theorem createNote_current_points_to_draft :
    (getNote (runOps initState [Op.createNote "alice" "T" "C" [] []]) 1).map
      Note.current_version_id = some (some 2) ∧
    versionState (runOps initState [Op.createNote "alice" "T" "C" [] []]) 2 =
      some NoteState.draft ∧
    NoteState.draft ≠ NoteState.approved := by
  refine ⟨by decide, by decide, by decide⟩

/-- C2 failing run: create a note (its DRAFT version 2 becomes the current
version), submit version 2 for review (review 3), branch a new draft from the
current — still NEEDS_REVIEW — version (version 5), then request changes on
review 3. The revert of version 2 to DRAFT leaves note 1 with two DRAFT
versions at once, violating the single-draft invariant. -/
theorem two_drafts_after_branch_and_request_changes :
    (draftsOf (runOps initState
      [Op.createNote "alice" "T" "C" [] [],
       Op.submitForReview 2 "alice" none none none none,
       Op.createDraftFromCurrent 1 "carol" "C2" none none [],
       Op.requestChanges 3 "bob" none]).versions 1).map Version.id = [2, 5] ∧
    draftCount (runOps initState
      [Op.createNote "alice" "T" "C" [] [],
       Op.submitForReview 2 "alice" none none none none,
       Op.createDraftFromCurrent 1 "carol" "C2" none none [],
       Op.requestChanges 3 "bob" none]) 1 = 2 := by
  refine ⟨by decide, by decide⟩

/-- C10: on a note that already has a draft, `create_draft_from_current`
overwrites only the draft's payload (title, content, tags, vector) in place;
its `created_by`, `version_index`, `state` and `submitted_by` are untouched
and the caller's identity is never recorded — even though the same caller
would be rejected with Forbidden by `update_draft` on that draft. -/
theorem createDraftFromCurrent_frame (s : RepoState) (nid : Nat) (author content : String)
    (t : Option String) (tg : Option (List String)) (vec : List Rat)
    (n : Note) (b : Nat) (bv E : Version)
    (hnd : (s.versions.map Version.id).Nodup)
    (hn : getNote s nid = some n)
    (hc : n.current_version_id = some b)
    (hb : getVersion s b = some bv)
    (hd : getDraftForNote s nid = some E) :
    (∃ d, (createDraftFromCurrent s nid author content t tg vec).2 = Except.ok d ∧
      d.id = E.id ∧ d.created_by = E.created_by ∧ d.version_index = E.version_index ∧
      d.state = E.state ∧ d.submitted_by = E.submitted_by ∧
      d.title = strOr t bv.title ∧ d.content = content ∧ d.tags = listOr tg bv.tags ∧
      d.vector = some vec ∧
      getVersion (createDraftFromCurrent s nid author content t tg vec).1 E.id = some d) ∧
    (author ≠ E.created_by →
      ∀ t2 c2 tg2 vec2,
        (updateDraft s E.id author t2 c2 tg2 vec2).2 = Except.error Err.forbidden) := by
  have hmem := getDraftForNote_mem s nid E hd
  have hvE : getVersion s E.id = some E :=
    findBy_of_mem_nodup Version.id s.versions E hnd hmem.1
  constructor
  · unfold createDraftFromCurrent
    rw [hn]
    dsimp only
    rw [hc]
    dsimp only
    rw [hb]
    dsimp only
    rw [hd]
    dsimp only
    rw [updateVersionRepo_found]
    case hv => exact hvE
    dsimp only
    refine ⟨_, rfl, ?_, ?_, ?_, ?_, ?_, ?_, ?_, ?_, ?_, ?_⟩
    · simp [applyVersionPatch]
    · simp [applyVersionPatch]
    · simp [applyVersionPatch]
    · simp [applyVersionPatch]
    · simp [applyVersionPatch]
    · simp [applyVersionPatch]
    · simp [applyVersionPatch]
    · simp [applyVersionPatch]
    · simp [applyVersionPatch]
    · exact findBy_updateBy_const Version.id _ E.id _ (by simp [applyVersionPatch_id]) E hvE
  · intro hne t2 c2 tg2 vec2
    simp [updateDraft, hvE, hmem.2.2, Ne.symm hne]

/-- Witness for C10: "mallory" replaces the content of the draft that "alice"
owns (version 5) through `create_draft_from_current`, although `update_draft`
would reject "mallory" with Forbidden on that very version. -/
theorem createDraftFromCurrent_frame_witness :
    (∃ d, (createDraftFromCurrent (runOps initState
        [Op.createNote "alice" "T" "C" [] [],
         Op.submitForReview 2 "alice" none none none none,
         Op.approveVersion 2 "bob" none,
         Op.createDraftFromCurrent 1 "alice" "D1" none none []]) 1 "mallory" "NEW"
        none none []).2 = Except.ok d ∧
      d.id = 5 ∧ d.created_by = "alice" ∧ d.version_index = 1 ∧
      d.state = NoteState.draft ∧ d.submitted_by = none ∧
      d.title = "T" ∧ d.content = "NEW" ∧ d.tags = ([] : List String) ∧
      d.vector = some ([] : List Rat) ∧
      getVersion (createDraftFromCurrent (runOps initState
        [Op.createNote "alice" "T" "C" [] [],
         Op.submitForReview 2 "alice" none none none none,
         Op.approveVersion 2 "bob" none,
         Op.createDraftFromCurrent 1 "alice" "D1" none none []]) 1 "mallory" "NEW"
        none none []).1 5 = some d) ∧
    ("mallory" ≠ "alice" →
      ∀ t2 c2 tg2 vec2,
        (updateDraft (runOps initState
          [Op.createNote "alice" "T" "C" [] [],
           Op.submitForReview 2 "alice" none none none none,
           Op.approveVersion 2 "bob" none,
           Op.createDraftFromCurrent 1 "alice" "D1" none none []]) 5 "mallory"
          t2 c2 tg2 vec2).2 = Except.error Err.forbidden) :=
  createDraftFromCurrent_frame (runOps initState
      [Op.createNote "alice" "T" "C" [] [],
       Op.submitForReview 2 "alice" none none none none,
       Op.approveVersion 2 "bob" none,
       Op.createDraftFromCurrent 1 "alice" "D1" none none []]) 1 "mallory" "NEW"
    none none []
    { id := 1, title := "T", created_at := 0, created_by := "alice",
      committed_by := some "bob", tags := [], current_version_id := some 2 }
    2
    { id := 2, note_id := 1, version_index := 0, title := "T", content := "C", tags := [],
      state := NoteState.approved, created_at := 0, created_by := "alice",
      submitted_by := some "alice", committed_by := some "bob", reviewed_by := some "bob",
      vector := some [] }
    { id := 5, note_id := 1, version_index := 1, title := "T", content := "D1", tags := [],
      state := NoteState.draft, created_at := 3, created_by := "alice",
      vector := some [] }
    (by decide) (by decide) (by decide) (by decide) (by decide)

theorem createDraft_update_case (s : RepoState) (nid : Nat) (author content : String)
    (t : Option String) (tg : Option (List String)) (vec : List Rat)
    (n : Note) (b : Nat) (bv E : Version) (p : VersionPatch)
    (hd : getDraftForNote s nid = some E)
    (hvE : getVersion s E.id = some E)
    (hn : getNote s nid = some n)
    (hc : n.current_version_id = some b)
    (hb : getVersion s b = some bv)
    (hp : p = { title := some (strOr t bv.title), content := some content,
                tags := some (listOr tg bv.tags), vector := some (some vec) }) :
    createDraftFromCurrent s nid author content t tg vec =
      ({ s with versions := updateBy Version.id s.versions E.id (fun _ => applyVersionPatch E p) },
        Except.ok (applyVersionPatch E p)) := by
  subst hp
  unfold createDraftFromCurrent
  rw [hn]
  dsimp only
  rw [hc]
  dsimp only
  rw [hb]
  dsimp only
  rw [hd]
  dsimp only
  rw [updateVersionRepo_found]
  case hv => exact hvE

theorem createDraft_create_case (s : RepoState) (nid : Nat) (author content : String)
    (t : Option String) (tg : Option (List String)) (vec : List Rat)
    (n : Note) (b : Nat) (bv : Version)
    (hd : getDraftForNote s nid = none)
    (hn : getNote s nid = some n)
    (hc : n.current_version_id = some b)
    (hb : getVersion s b = some bv) :
    createDraftFromCurrent s nid author content t tg vec =
      ((createNewVersion s nid bv author content (some (strOr t bv.title))
          (some (listOr tg bv.tags)) (some vec)).1,
        Except.ok (createNewVersion s nid bv author content (some (strOr t bv.title))
          (some (listOr tg bv.tags)) (some vec)).2) := by
  unfold createDraftFromCurrent
  rw [hn]
  dsimp only
  rw [hc]
  dsimp only
  rw [hb]
  dsimp only
  rw [hd]

theorem updateDrafts_getters (s : RepoState) (E E1 : Version)
    (hid : E1.id = E.id) (hnote : E1.note_id = E.note_id) (hst : E1.state = E.state)
    (hix : E1.version_index = E.version_index)
    (hnd : (s.versions.map Version.id).Nodup) (hEmem : E ∈ s.versions) :
    (∀ k, getVersion { s with versions := updateBy Version.id s.versions E.id (fun _ => E1) } k
        = (getVersion s k).map (fun x => if x.id = E.id then E1 else x)) ∧
    (∀ m, getDraftForNote
        { s with versions := updateBy Version.id s.versions E.id (fun _ => E1) } m
        = (getDraftForNote s m).map (fun x => if x.id = E.id then E1 else x)) := by
  have hpres : ∀ x ∈ s.versions,
      ((fun x => if x.id = E.id then E1 else x) x).note_id = x.note_id ∧
      ((fun x => if x.id = E.id then E1 else x) x).state = x.state ∧
      ((fun x => if x.id = E.id then E1 else x) x).version_index = x.version_index := by
    intro x hx
    by_cases h : x.id = E.id
    · have hxE : x = E := mem_eq_of_nodup_key Version.id s.versions x E hnd hx hEmem h
      subst hxE
      simp [h, hnote, hst, hix]
    · simp [h]
  constructor
  · intro k
    unfold getVersion updateBy
    dsimp only
    refine findBy_map Version.id _ s.versions k (fun x _ => ?_)
    by_cases h : x.id = E.id <;> simp [h, hid]
  · intro m
    unfold getDraftForNote updateBy
    dsimp only
    rw [draftsOf_map _ s.versions m (fun v hv => ⟨(hpres v hv).1, (hpres v hv).2.1⟩)]
    exact pickMaxIndex_map _ (draftsOf s.versions m)
      (fun v hv => (hpres v (draftsOf_mem s.versions m v hv).1).2.2)

theorem getVersion_createNewVersion (s : RepoState) (nid : Nat) (bse : Version) (a c : String)
    (t : Option String) (tg : Option (List String)) (w : Option (List Rat)) (k : Nat) :
    getVersion (createNewVersion s nid bse a c t tg w).1 k =
      match getVersion s k with
      | some v => some v
      | none => findBy Version.id [(createNewVersion s nid bse a c t tg w).2] k := by
  unfold createNewVersion getVersion
  dsimp only
  rw [findBy_append]
  cases findBy Version.id s.versions k <;> rfl

theorem getDraft_createNewVersion (s : RepoState) (nid : Nat) (bse : Version) (a c : String)
    (t : Option String) (tg : Option (List String)) (w : Option (List Rat)) :
    getDraftForNote (createNewVersion s nid bse a c t tg w).1 nid =
      pickMaxIndex (draftsOf s.versions nid ++ [(createNewVersion s nid bse a c t tg w).2]) := by
  unfold createNewVersion getDraftForNote
  dsimp only
  rw [draftsOf_append]
  congr 1
  simp [draftsOf]

/-- C9: with a note that has a `current_version_id` whose version resolves,
calling `create_draft_from_current` twice in a row (no interleaved
operations) returns a version with the same id both times: the second call
updates the draft in place instead of allocating a new row. -/
theorem createDraftFromCurrent_idempotent (s : RepoState) (nid : Nat)
    (a1 a2 c1 c2 : String) (t1 t2 : Option String) (g1 g2 : Option (List String))
    (w1 w2 : List Rat) (n : Note) (b : Nat) (bv : Version)
    (hnd : (s.versions.map Version.id).Nodup)
    (hfr : ∀ v ∈ s.versions, v.id < s.nextId)
    (hn : getNote s nid = some n)
    (hc : n.current_version_id = some b)
    (hb : getVersion s b = some bv) :
    ∃ d1 d2,
      (createDraftFromCurrent s nid a1 c1 t1 g1 w1).2 = Except.ok d1 ∧
      (createDraftFromCurrent (createDraftFromCurrent s nid a1 c1 t1 g1 w1).1
        nid a2 c2 t2 g2 w2).2 = Except.ok d2 ∧
      d2.id = d1.id := by
  cases hd : getDraftForNote s nid with
  | some E =>
    have hmem := getDraftForNote_mem s nid E hd
    have hvE : getVersion s E.id = some E :=
      findBy_of_mem_nodup Version.id s.versions E hnd hmem.1
    have h1 := createDraft_update_case s nid a1 c1 t1 g1 w1 n b bv E _ hd hvE hn hc hb rfl
    have hgets := updateDrafts_getters s E
      (applyVersionPatch E
        { title := some (strOr t1 bv.title), content := some c1,
          tags := some (listOr g1 bv.tags), vector := some (some w1) })
      rfl rfl rfl rfl hnd hmem.1
    have hb1 := hgets.1 b
    rw [hb] at hb1
    simp at hb1
    have hd1 := hgets.2 nid
    rw [hd] at hd1
    simp at hd1
    have hv1 := hgets.1 E.id
    rw [hvE] at hv1
    simp at hv1
    have h2 := createDraft_update_case _ nid a2 c2 t2 g2 w2 n b _ _ _ hd1 hv1 hn hc hb1 rfl
    rw [h1]
    dsimp only
    rw [h2]
    exact ⟨_, _, rfl, rfl, rfl⟩
  | none =>
    have h1 := createDraft_create_case s nid a1 c1 t1 g1 w1 n b bv hd hn hc hb
    have hd0 : draftsOf s.versions nid = [] := pickMaxIndex_eq_none _ hd
    have hb1 : getVersion (createNewVersion s nid bv a1 c1 (some (strOr t1 bv.title))
        (some (listOr g1 bv.tags)) (some w1)).1 b = some bv := by
      rw [getVersion_createNewVersion, hb]
    have hd1 : getDraftForNote (createNewVersion s nid bv a1 c1 (some (strOr t1 bv.title))
        (some (listOr g1 bv.tags)) (some w1)).1 nid =
        some (createNewVersion s nid bv a1 c1 (some (strOr t1 bv.title))
          (some (listOr g1 bv.tags)) (some w1)).2 := by
      rw [getDraft_createNewVersion, hd0]
      rfl
    have hvN : getVersion (createNewVersion s nid bv a1 c1 (some (strOr t1 bv.title))
        (some (listOr g1 bv.tags)) (some w1)).1
        (createNewVersion s nid bv a1 c1 (some (strOr t1 bv.title))
          (some (listOr g1 bv.tags)) (some w1)).2.id =
        some (createNewVersion s nid bv a1 c1 (some (strOr t1 bv.title))
          (some (listOr g1 bv.tags)) (some w1)).2 := by
      rw [getVersion_createNewVersion]
      rw [show getVersion s (createNewVersion s nid bv a1 c1 (some (strOr t1 bv.title))
          (some (listOr g1 bv.tags)) (some w1)).2.id = none from
        findBy_eq_none _ _ _ (fun v hv => Nat.ne_of_lt (hfr v hv))]
      simp [findBy]
    have h2 := createDraft_update_case _ nid a2 c2 t2 g2 w2 n b bv _ _ hd1 hvN hn hc hb1 rfl
    rw [h1]
    dsimp only
    rw [h2]
    exact ⟨_, _, rfl, rfl, rfl⟩

/-- Witness for C9: two draft creations in a row on a fresh note both return
version 2. -/
theorem createDraftFromCurrent_idempotent_witness :
    ∃ d1 d2,
      (createDraftFromCurrent (runOps initState [Op.createNote "alice" "T" "C" [] []])
        1 "alice" "X" none none []).2 = Except.ok d1 ∧
      (createDraftFromCurrent (createDraftFromCurrent
          (runOps initState [Op.createNote "alice" "T" "C" [] []])
          1 "alice" "X" none none []).1
        1 "alice" "Y" none none []).2 = Except.ok d2 ∧
      d2.id = d1.id :=
  createDraftFromCurrent_idempotent (runOps initState [Op.createNote "alice" "T" "C" [] []])
    1 "alice" "alice" "X" "Y" none none none none [] []
    { id := 1, title := "T", created_at := 0, created_by := "alice", tags := [],
      current_version_id := some 2 }
    2
    { id := 2, note_id := 1, version_index := 0, title := "T", content := "C", tags := [],
      state := NoteState.draft, created_at := 0, created_by := "alice", vector := some [] }
    (by decide) (by decide) (by decide) (by decide) (by decide)

/-- A sample APPROVED version used to exercise the search ranker on concrete
inputs. -/
def sampleVersion : Version :=
  { id := 7, note_id := 1, version_index := 0, title := "t", content := "c", tags := [],
    state := NoteState.approved, created_at := 0, created_by := "a" }

/-- C3 counterexample: a version ranked first by keyword (score 1) that also
appears in the vector results with score 0 keeps the final score 1 — the
dedup loop keeps the maximum score seen, so the combined score is not the
arithmetic mean 1/2 of the two signals. -/
theorem hybridSearch_shared_id_keeps_max_not_mean :
    hybridSearch (some [sampleVersion]) (some [(sampleVersion, 0)]) 10 =
      [(sampleVersion, 1)] ∧
    ((1 : Rat) + 0) / 2 ≠ (1 : Rat) := by
  constructor
  · simp [hybridSearch, kwEntries, kwScore, buildSeen, vecPass, seenFind, seenSet, dedupStep,
      dedupFind, dedupReplace, findBy, updateBy, List.enum]
    norm_num [List.mergeSort_singleton]
  · norm_num

theorem findBy_isSome_iff {α : Type} (key : α → Nat) (l : List α) (k : Nat) :
    (findBy key l k).isSome ↔ k ∈ l.map key := by
  induction l with
  | nil => simp [findBy]
  | cons x rest ih =>
    simp only [findBy, List.map_cons, List.mem_cons]
    split
    · rename_i h
      simp [h.symm]
    · rename_i h
      rw [ih]
      constructor
      · exact fun hk => Or.inr hk
      · rintro (hk | hk)
        · exact absurd hk.symm h
        · exact hk

theorem findBy_seenSet_self (m : List (Nat × Rat)) (k : Nat) (v : Rat) :
    findBy (fun p => p.1) (seenSet m k v) k = some (k, v) := by
  induction m with
  | nil => simp [seenSet, findBy]
  | cons p rest ih =>
    by_cases h : p.1 = k
    · simp [seenSet, h, findBy]
    · simp [seenSet, h, findBy, ih]

theorem seenFind_seenSet_self (m : List (Nat × Rat)) (k : Nat) (v : Rat) :
    seenFind (seenSet m k v) k = some v := by
  unfold seenFind
  rw [findBy_seenSet_self]
  rfl

theorem findBy_seenSet_other (m : List (Nat × Rat)) (k k' : Nat) (v : Rat) (h : k' ≠ k) :
    findBy (fun p => p.1) (seenSet m k v) k' = findBy (fun p => p.1) m k' := by
  induction m with
  | nil => simp [seenSet, findBy, Ne.symm h]
  | cons p rest ih =>
    by_cases hp : p.1 = k
    · simp [seenSet, hp, findBy, Ne.symm h]
    · simp only [seenSet, if_neg hp, findBy]
      split
      · rfl
      · exact ih

theorem seenFind_seenSet_other (m : List (Nat × Rat)) (k k' : Nat) (v : Rat) (h : k' ≠ k) :
    seenFind (seenSet m k v) k' = seenFind m k' := by
  unfold seenFind
  rw [findBy_seenSet_other m k k' v h]

/-- All entries of a pass carrying a given version id, in order (the
occurrences the dedup loop folds over for that id). -/
def entriesWithId : List (Version × Rat) → Nat → List (Version × Rat)
  | [], _ => []
  | p :: rest, i => if p.1.id = i then p :: entriesWithId rest i else entriesWithId rest i

theorem foldl_seenSet_lookup (l : List (Version × Rat)) (m : List (Nat × Rat)) (i : Nat)
    (hnd : (l.map (fun p => p.1.id)).Nodup) :
    seenFind (l.foldl (fun m p => seenSet m p.1.id p.2) m) i =
      match dedupFind l i with
      | some q => some q.2
      | none => seenFind m i := by
  induction l generalizing m with
  | nil => simp [dedupFind, findBy]
  | cons p rest ih =>
    simp only [List.map_cons, List.nodup_cons] at hnd
    simp only [List.foldl_cons]
    rw [ih _ hnd.2]
    by_cases h : p.1.id = i
    · rw [show dedupFind rest i = none from
        findBy_eq_none _ _ _ (fun x hx hc => hnd.1 ((h ▸ hc : x.1.id = p.1.id) ▸
          List.mem_map_of_mem _ hx))]
      rw [show dedupFind (p :: rest) i = some p from by simp [dedupFind, findBy, h]]
      dsimp only
      exact h ▸ seenFind_seenSet_self m p.1.id p.2
    · rw [show dedupFind (p :: rest) i = dedupFind rest i from by simp [dedupFind, findBy, h]]
      cases hq : dedupFind rest i with
      | some q => rfl
      | none =>
        dsimp only
        exact seenFind_seenSet_other m p.1.id i p.2 (Ne.symm h)

theorem buildSeen_lookup (l : List (Version × Rat)) (i : Nat)
    (hnd : (l.map (fun p => p.1.id)).Nodup) :
    seenFind (buildSeen l) i = (dedupFind l i).map (fun q => q.2) := by
  unfold buildSeen
  rw [foldl_seenSet_lookup l [] i hnd]
  cases dedupFind l i <;> rfl

theorem vecPass_eq (seen : List (Nat × Rat)) (vms : List (Version × Rat))
    (hnd : (vms.map (fun p => p.1.id)).Nodup) :
    vecPass seen vms = vms.map (fun p =>
      (p.1, match seenFind seen p.1.id with
            | some prev => (prev + p.2) / 2
            | none => p.2)) := by
  induction vms generalizing seen with
  | nil => rfl
  | cons p rest ih =>
    obtain ⟨v, sc⟩ := p
    simp only [List.map_cons, List.nodup_cons] at hnd
    unfold vecPass
    dsimp only
    congr 1
    rw [ih _ hnd.2]
    refine List.map_congr_left (fun q hq => ?_)
    have hne : q.1.id ≠ v.id := fun hc => hnd.1 (hc ▸ List.mem_map_of_mem _ hq)
    rw [seenFind_seenSet_other _ _ _ _ hne]

theorem kwEntries_keys (cl : Nat) (ms : List Version) :
    (kwEntries cl ms).map (fun p => p.1.id) = ms.map Version.id := by
  unfold kwEntries
  rw [List.map_map]
  rw [show ((fun p => p.1.id) ∘ fun p : Nat × Version => (p.2, kwScore cl (p.1 + 1))) =
      (Version.id ∘ Prod.snd) from rfl]
  rw [← List.map_map, List.enum_map_snd]

/-- The running best entry, mirroring one dedup comparison: strictly larger
scores replace, ties keep the earlier entry. -/
def maxEntry (o : Option (Version × Rat)) (p : Version × Rat) : Option (Version × Rat) :=
  match o with
  | none => some p
  | some q => if q.2 < p.2 then some p else some q

theorem dedupStep_find_self (acc : List (Version × Rat)) (p : Version × Rat) :
    dedupFind (dedupStep acc p) p.1.id = maxEntry (dedupFind acc p.1.id) p := by
  unfold dedupStep
  cases h : dedupFind acc p.1.id with
  | none =>
    unfold dedupFind at *
    rw [findBy_append, h]
    simp [findBy, maxEntry]
  | some q =>
    dsimp only
    by_cases hlt : q.2 < p.2
    · rw [if_pos hlt]
      unfold dedupFind dedupReplace at *
      rw [show maxEntry (some q) p = some p from by simp [maxEntry, hlt]]
      exact findBy_updateBy_const _ acc p.1.id p rfl q h
    · rw [if_neg hlt]
      rw [show maxEntry (some q) p = some q from by simp [maxEntry, hlt]]
      exact h

theorem dedupStep_find_other (acc : List (Version × Rat)) (p : Version × Rat) (i : Nat)
    (hne : i ≠ p.1.id) :
    dedupFind (dedupStep acc p) i = dedupFind acc i := by
  unfold dedupStep
  cases h : dedupFind acc p.1.id with
  | none =>
    unfold dedupFind at *
    rw [findBy_append]
    cases hq : findBy (fun p => p.1.id) acc i with
    | some q => rfl
    | none => simp [findBy, Ne.symm hne]
  | some q =>
    dsimp only
    by_cases hlt : q.2 < p.2
    · rw [if_pos hlt]
      unfold dedupFind dedupReplace at *
      exact findBy_updateBy_other _ acc p.1.id i _ (fun x _ => rfl) hne
    · rw [if_neg hlt]

theorem dedupFold_find (l : List (Version × Rat)) (acc : List (Version × Rat)) (i : Nat) :
    dedupFind (l.foldl dedupStep acc) i =
      (entriesWithId l i).foldl maxEntry (dedupFind acc i) := by
  induction l generalizing acc with
  | nil => rfl
  | cons p rest ih =>
    simp only [List.foldl_cons]
    rw [ih]
    by_cases h : p.1.id = i
    · rw [show entriesWithId (p :: rest) i = p :: entriesWithId rest i from by
        simp [entriesWithId, h]]
      simp only [List.foldl_cons]
      rw [show dedupFind (dedupStep acc p) i = maxEntry (dedupFind acc i) p from by
        rw [← h] at *
        exact dedupStep_find_self acc p]
    · rw [show entriesWithId (p :: rest) i = entriesWithId rest i from by
        simp [entriesWithId, h]]
      rw [dedupStep_find_other acc p i (fun hc => h hc.symm)]

theorem updateBy_map_key {α : Type} (key : α → Nat) (l : List α) (k : Nat) (f : α → α)
    (hf : ∀ x, key x = k → key (f x) = k) :
    (updateBy key l k f).map key = l.map key := by
  unfold updateBy
  rw [List.map_map]
  refine List.map_congr_left (fun x _ => ?_)
  by_cases h : key x = k
  · simp [h, hf x h]
  · simp [h]

theorem findBy_none_not_mem {α : Type} (key : α → Nat) (l : List α) (k : Nat)
    (h : findBy key l k = none) : k ∉ l.map key := by
  intro hk
  have := (findBy_isSome_iff key l k).mpr hk
  rw [h] at this
  cases this

theorem dedupStep_keys_nodup (acc : List (Version × Rat)) (p : Version × Rat)
    (hnd : (acc.map (fun q => q.1.id)).Nodup) :
    ((dedupStep acc p).map (fun q => q.1.id)).Nodup := by
  unfold dedupStep
  cases h : dedupFind acc p.1.id with
  | none =>
    rw [List.map_append]
    simp only [List.map_cons, List.map_nil]
    rw [List.nodup_append]
    refine ⟨hnd, List.nodup_singleton _, ?_⟩
    intro a ha hb
    simp only [List.mem_singleton] at hb
    subst hb
    exact findBy_none_not_mem _ acc p.1.id h ha
  | some q =>
    dsimp only
    by_cases hlt : q.2 < p.2
    · rw [if_pos hlt]
      unfold dedupReplace
      rw [updateBy_map_key _ acc p.1.id _ (fun x _ => rfl)]
      exact hnd
    · rw [if_neg hlt]
      exact hnd

theorem dedupFold_keys_nodup (l acc : List (Version × Rat))
    (hnd : (acc.map (fun q => q.1.id)).Nodup) :
    (((l.foldl dedupStep acc)).map (fun q => q.1.id)).Nodup := by
  induction l generalizing acc with
  | nil => exact hnd
  | cons p rest ih =>
    simp only [List.foldl_cons]
    exact ih _ (dedupStep_keys_nodup acc p hnd)

theorem entriesWithId_append (l₁ l₂ : List (Version × Rat)) (i : Nat) :
    entriesWithId (l₁ ++ l₂) i = entriesWithId l₁ i ++ entriesWithId l₂ i := by
  induction l₁ with
  | nil => rfl
  | cons p rest ih =>
    simp only [List.cons_append, entriesWithId]
    split <;> simp [ih]

theorem entriesWithId_of_nodup (l : List (Version × Rat)) (i : Nat)
    (hnd : (l.map (fun q => q.1.id)).Nodup) :
    entriesWithId l i =
      match dedupFind l i with
      | some q => [q]
      | none => [] := by
  induction l with
  | nil => rfl
  | cons p rest ih =>
    simp only [List.map_cons, List.nodup_cons] at hnd
    by_cases h : p.1.id = i
    · rw [show entriesWithId (p :: rest) i = p :: entriesWithId rest i from by
        simp [entriesWithId, h]]
      rw [show dedupFind (p :: rest) i = some p from by simp [dedupFind, findBy, h]]
      rw [ih hnd.2]
      rw [show dedupFind rest i = none from
        findBy_eq_none _ _ _ (fun x hx hc => hnd.1 ((h ▸ hc : x.1.id = p.1.id) ▸
          List.mem_map_of_mem _ hx))]
    · rw [show entriesWithId (p :: rest) i = entriesWithId rest i from by
        simp [entriesWithId, h]]
      rw [show dedupFind (p :: rest) i = dedupFind rest i from by
        simp [dedupFind, findBy, h]]
      exact ih hnd.2

theorem entriesWithId_nil_iff (l : List (Version × Rat)) (i : Nat) :
    entriesWithId l i = [] ↔ i ∉ l.map (fun q => q.1.id) := by
  induction l with
  | nil => simp [entriesWithId]
  | cons p rest ih =>
    simp only [entriesWithId, List.map_cons, List.mem_cons]
    split
    · rename_i h
      simp [h]
    · rename_i h
      rw [ih]
      constructor
      · intro hni
        intro hc
        rcases hc with hc | hc
        · exact h hc.symm
        · exact hni hc
      · intro hc
        exact fun hm => hc (Or.inr hm)

theorem foldl_maxEntry_eq_none (es : List (Version × Rat)) (o : Option (Version × Rat))
    (h : es.foldl maxEntry o = none) : o = none ∧ es = [] := by
  cases es with
  | nil => exact ⟨h, rfl⟩
  | cons p rest =>
    exfalso
    simp only [List.foldl_cons] at h
    induction rest generalizing o p with
    | nil =>
      unfold maxEntry at h
      cases o with
      | none => cases h
      | some q =>
        dsimp only at h
        split at h <;> cases h
    | cons r more ih => exact ih (maxEntry o p) r h

/-- C3 amended: with the keyword and vector result lists each free of
duplicate version ids, `hybrid_search` returns a list deduplicated by
version id and stably sorted by descending combined score, where a version id
appearing in both lists scores the MAXIMUM of its keyword score and the
arithmetic mean of its keyword and vector scores (the dedup loop keeps the
larger of the two recorded entries), and an id appearing in exactly one list
keeps that single score; an id appears in the output exactly when it appears
in at least one input list. -/
theorem hybridSearch_spec (kwMs : List Version) (vms : List (Version × Rat)) (cl : Nat)
    (hknd : (kwMs.map Version.id).Nodup)
    (hvnd : (vms.map (fun p => p.1.id)).Nodup) :
    ((hybridSearch (some kwMs) (some vms) cl).map (fun p => p.1.id)).Nodup ∧
    (hybridSearch (some kwMs) (some vms) cl).Pairwise (fun a b => b.2 ≤ a.2) ∧
    (∀ p ∈ hybridSearch (some kwMs) (some vms) cl,
      match dedupFind (kwEntries cl kwMs) p.1.id, dedupFind vms p.1.id with
      | some q, some w => p.2 = max q.2 ((q.2 + w.2) / 2)
      | some q, none => p.2 = q.2
      | none, some w => p.2 = w.2
      | none, none => False) ∧
    (∀ i, (i ∈ kwMs.map Version.id ∨ i ∈ vms.map (fun p => p.1.id)) ↔
      i ∈ (hybridSearch (some kwMs) (some vms) cl).map (fun p => p.1.id)) := by
  have hkk : (kwEntries cl kwMs).map (fun p => p.1.id) = kwMs.map Version.id :=
    kwEntries_keys cl kwMs
  have hkwnd : ((kwEntries cl kwMs).map (fun p => p.1.id)).Nodup := by rw [hkk]; exact hknd
  have hvecs : vecPass (buildSeen (kwEntries cl kwMs)) vms =
      vms.map (fun p =>
        (p.1, match seenFind (buildSeen (kwEntries cl kwMs)) p.1.id with
              | some prev => (prev + p.2) / 2
              | none => p.2)) :=
    vecPass_eq (buildSeen (kwEntries cl kwMs)) vms hvnd
  have hveck : (vecPass (buildSeen (kwEntries cl kwMs)) vms).map (fun p => p.1.id) =
      vms.map (fun p => p.1.id) := by
    rw [hvecs, List.map_map]
    exact List.map_congr_left (fun p _ => rfl)
  have hout : hybridSearch (some kwMs) (some vms) cl =
      ((kwEntries cl kwMs ++ vecPass (buildSeen (kwEntries cl kwMs)) vms).foldl
        dedupStep []).mergeSort (fun a b => decide (b.2 ≤ a.2)) := rfl
  have hdnd : (((kwEntries cl kwMs ++ vecPass (buildSeen (kwEntries cl kwMs)) vms).foldl
      dedupStep []).map (fun q => q.1.id)).Nodup :=
    dedupFold_keys_nodup _ [] (by simp)
  have hperm := List.mergeSort_perm
    ((kwEntries cl kwMs ++ vecPass (buildSeen (kwEntries cl kwMs)) vms).foldl dedupStep [])
    (fun a b => decide (b.2 ≤ a.2))
  have hfold : ∀ i, dedupFind ((kwEntries cl kwMs ++
        vecPass (buildSeen (kwEntries cl kwMs)) vms).foldl dedupStep []) i =
      (entriesWithId (kwEntries cl kwMs) i ++
        entriesWithId (vecPass (buildSeen (kwEntries cl kwMs)) vms) i).foldl maxEntry none := by
    intro i
    rw [dedupFold_find, entriesWithId_append]
    rfl
  refine ⟨?_, ?_, ?_, ?_⟩
  · rw [hout]
    exact ((hperm.map (fun q => q.1.id)).nodup_iff).mpr hdnd
  · rw [hout]
    refine List.Pairwise.imp ?_ (List.sorted_mergeSort ?_ ?_ _)
    · intro a b h
      simpa using h
    · intro a b c hab hbc
      simp only [decide_eq_true_eq] at *
      exact le_trans hbc hab
    · intro a b
      simpa using le_total b.2 a.2
  · intro p hp
    rw [hout] at hp
    have hpd := hperm.subset hp
    have hfind := findBy_of_mem_nodup (fun q => q.1.id) _ p hdnd hpd
    rw [show findBy (fun q => q.1.id) ((kwEntries cl kwMs ++
        vecPass (buildSeen (kwEntries cl kwMs)) vms).foldl dedupStep []) p.1.id =
        dedupFind ((kwEntries cl kwMs ++
          vecPass (buildSeen (kwEntries cl kwMs)) vms).foldl dedupStep []) p.1.id from rfl]
      at hfind
    rw [hfold p.1.id] at hfind
    have hvecnd : ((vecPass (buildSeen (kwEntries cl kwMs)) vms).map (fun p => p.1.id)).Nodup := by
      rw [hveck]
      exact hvnd
    rw [entriesWithId_of_nodup _ _ hkwnd, entriesWithId_of_nodup _ _ hvecnd] at hfind
    have hvfind : dedupFind (vecPass (buildSeen (kwEntries cl kwMs)) vms) p.1.id =
        (dedupFind vms p.1.id).map (fun q =>
          (q.1, match seenFind (buildSeen (kwEntries cl kwMs)) q.1.id with
                | some prev => (prev + q.2) / 2
                | none => q.2)) := by
      rw [hvecs]
      exact findBy_map _ _ vms p.1.id (fun q _ => rfl)
    rw [hvfind] at hfind
    cases hk : dedupFind (kwEntries cl kwMs) p.1.id with
    | some q =>
      rw [hk] at hfind
      cases hv : dedupFind vms p.1.id with
      | some w =>
        rw [hv] at hfind
        have hwid : w.1.id = p.1.id := (findBy_mem _ vms p.1.id w hv).2
        dsimp only [Option.map] at hfind
        rw [hwid, buildSeen_lookup _ _ hkwnd, hk] at hfind
        dsimp only [Option.map, List.singleton_append, List.foldl_cons, List.foldl_nil,
          maxEntry] at hfind
        dsimp only
        by_cases hlt : q.2 < (q.2 + w.2) / 2
        · rw [if_pos hlt] at hfind
          cases hfind
          exact (max_eq_right (le_of_lt hlt)).symm
        · rw [if_neg hlt] at hfind
          cases hfind
          exact (max_eq_left (not_lt.mp hlt)).symm
      | none =>
        rw [hv] at hfind
        dsimp only [Option.map, List.append_nil, List.foldl_cons, List.foldl_nil,
          maxEntry] at hfind
        dsimp only
        cases hfind
        rfl
    | none =>
      rw [hk] at hfind
      cases hv : dedupFind vms p.1.id with
      | some w =>
        rw [hv] at hfind
        have hwid : w.1.id = p.1.id := (findBy_mem _ vms p.1.id w hv).2
        dsimp only [Option.map] at hfind
        rw [hwid, buildSeen_lookup _ _ hkwnd, hk] at hfind
        dsimp only [Option.map, List.nil_append, List.foldl_cons, List.foldl_nil,
          maxEntry] at hfind
        dsimp only
        cases hfind
        rfl
      | none =>
        rw [hv] at hfind
        dsimp only [Option.map, List.nil_append, List.foldl_nil] at hfind
        cases hfind
  · intro i
    rw [hout]
    have hiff := findBy_isSome_iff (fun q => q.1.id) ((kwEntries cl kwMs ++
      vecPass (buildSeen (kwEntries cl kwMs)) vms).foldl dedupStep []) i
    rw [show findBy (fun q => q.1.id) ((kwEntries cl kwMs ++
        vecPass (buildSeen (kwEntries cl kwMs)) vms).foldl dedupStep []) i =
        dedupFind ((kwEntries cl kwMs ++
          vecPass (buildSeen (kwEntries cl kwMs)) vms).foldl dedupStep []) i from rfl,
      hfold i] at hiff
    rw [List.Perm.mem_iff (hperm.map (fun q => q.1.id))]
    rw [← hiff]
    constructor
    · intro hmem
      cases ho : (entriesWithId (kwEntries cl kwMs) i ++
          entriesWithId (vecPass (buildSeen (kwEntries cl kwMs)) vms) i).foldl
          maxEntry none with
      | some x => rfl
      | none =>
        exfalso
        have hnil := (foldl_maxEntry_eq_none _ _ ho).2
        rw [List.append_eq_nil] at hnil
        have h1 := (entriesWithId_nil_iff _ i).mp hnil.1
        have h2 := (entriesWithId_nil_iff _ i).mp hnil.2
        rw [hkk] at h1
        rw [hveck] at h2
        rcases hmem with hm | hm
        · exact h1 hm
        · exact h2 hm
    · intro hsome
      by_contra hno
      push_neg at hno
      have h1 : entriesWithId (kwEntries cl kwMs) i = [] := by
        rw [entriesWithId_nil_iff, hkk]
        exact hno.1
      have h2 : entriesWithId (vecPass (buildSeen (kwEntries cl kwMs)) vms) i = [] := by
        rw [entriesWithId_nil_iff, hveck]
        exact hno.2
      rw [h1, h2] at hsome
      simp at hsome

/-- Witness for the amended C3 at concrete inputs: one version ranked top by
keyword (score 1) and scored 1/2 by vector similarity. -/
theorem hybridSearch_spec_witness :
    ((hybridSearch (some [sampleVersion]) (some [(sampleVersion, (1 : Rat)/2)]) 10).map
      (fun p => p.1.id)).Nodup ∧
    (hybridSearch (some [sampleVersion]) (some [(sampleVersion, (1 : Rat)/2)]) 10).Pairwise
      (fun a b => b.2 ≤ a.2) ∧
    (∀ p ∈ hybridSearch (some [sampleVersion]) (some [(sampleVersion, (1 : Rat)/2)]) 10,
      match dedupFind (kwEntries 10 [sampleVersion]) p.1.id,
          dedupFind [(sampleVersion, (1 : Rat)/2)] p.1.id with
      | some q, some w => p.2 = max q.2 ((q.2 + w.2) / 2)
      | some q, none => p.2 = q.2
      | none, some w => p.2 = w.2
      | none, none => False) ∧
    (∀ i, (i ∈ [sampleVersion].map Version.id ∨
        i ∈ [(sampleVersion, (1 : Rat)/2)].map (fun p => p.1.id)) ↔
      i ∈ (hybridSearch (some [sampleVersion]) (some [(sampleVersion, (1 : Rat)/2)]) 10).map
        (fun p => p.1.id)) :=
  hybridSearch_spec [sampleVersion] [(sampleVersion, (1 : Rat)/2)] 10
    (by decide) (by decide)

/-- Note lookup only depends on the notes store. -/
theorem getNote_of_notes_eq {s s' : RepoState} (h : s'.notes = s.notes) (nid : Nat) :
    getNote s' nid = getNote s nid := by
  unfold getNote
  rw [h]

/-- A version's stored state only depends on the versions store. -/
theorem versionState_congr {s s' : RepoState} (h : s'.versions = s.versions) (vid : Nat) :
    versionState s' vid = versionState s vid := by
  unfold versionState getVersion
  rw [h]

/-- An operation that leaves the notes store untouched cannot make a note
reference a version id no note referenced before. -/
theorem preNotes_contra {s s' : RepoState} (h : s'.notes = s.notes) (nid vid : Nat) (n' : Note)
    (hpost : getNote s' nid = some n') (hcur : n'.current_version_id = some vid)
    (hpre : ∀ n ∈ s.notes, n.current_version_id ≠ some vid) : False := by
  apply hpre n' _ hcur
  have h2 : getNote s nid = some n' := by
    rw [← getNote_of_notes_eq h nid]
    exact hpost
  exact (findBy_mem Note.id s.notes nid n' h2).1

/-- An operation that preserves every note's `current_version_id` cannot make
a note reference a version id no note referenced before. -/
theorem preservedCurrent_contra {s : RepoState} {nid vid : Nat} {n' : Note}
    (hex : ∃ n, getNote s nid = some n ∧ n'.current_version_id = n.current_version_id)
    (hcur : n'.current_version_id = some vid)
    (hpre : ∀ n ∈ s.notes, n.current_version_id ≠ some vid) : False := by
  rcases hex with ⟨n, hn, he⟩
  exact hpre n (findBy_mem Note.id s.notes nid n hn).1 (he ▸ hcur)

/-- Looking a note up after an in-place update that preserves ids and
`current_version_id` finds a note with the pre-state's current pointer. -/
theorem getNote_updateBy_current (l : List Note) (k : Nat) (f : Note → Note)
    (nid : Nat) (n' : Note)
    (hpost : findBy Note.id (updateBy Note.id l k f) nid = some n')
    (hid : ∀ x, x.id = k → (f x).id = k)
    (hcu : ∀ x, x.id = k → findBy Note.id l k = some x →
      (f x).current_version_id = x.current_version_id) :
    ∃ n, findBy Note.id l nid = some n ∧ n'.current_version_id = n.current_version_id := by
  unfold updateBy at hpost
  rw [findBy_map Note.id _ l nid
    (fun x _ => by by_cases h : x.id = k <;> simp [h, hid x])] at hpost
  cases hn : findBy Note.id l nid with
  | none =>
    rw [hn] at hpost
    cases hpost
  | some n =>
    rw [hn] at hpost
    dsimp only [Option.map] at hpost
    injection hpost with hg
    refine ⟨n, rfl, ?_⟩
    by_cases h : n.id = k
    · have hnid : n.id = nid := (findBy_mem Note.id l nid n hn).2
      have hek : nid = k := by rw [← hnid, h]
      have hkk : findBy Note.id l k = some n := by rw [← hek]; exact hn
      rw [← hg, if_pos h]
      exact hcu n h hkk
    · rw [← hg, if_neg h]

/-- After `set_note_current_version` a found note either kept its old
`current_version_id` or carries exactly the newly assigned one. -/
theorem getNote_setNoteCurrentVersion (s : RepoState) (k : Nat) (v0 : Option Nat)
    (cb : Option String) (nid : Nat) (n' : Note)
    (hpost : getNote (setNoteCurrentVersion s k v0 cb) nid = some n') :
    ∃ n, getNote s nid = some n ∧
      (n'.current_version_id = n.current_version_id ∨ n'.current_version_id = v0) := by
  unfold setNoteCurrentVersion at hpost
  unfold getNote at hpost
  dsimp only at hpost
  unfold updateBy at hpost
  rw [findBy_map Note.id _ s.notes nid
    (fun x _ => by by_cases h : x.id = k <;> simp [h])] at hpost
  cases hn : findBy Note.id s.notes nid with
  | none =>
    rw [hn] at hpost
    cases hpost
  | some n =>
    rw [hn] at hpost
    dsimp only [Option.map] at hpost
    injection hpost with hg
    refine ⟨n, ?_, ?_⟩
    · exact hn
    · by_cases h : n.id = k
      · rw [← hg, if_pos h]
        exact Or.inr rfl
      · rw [← hg, if_neg h]
        exact Or.inl rfl

/-- Dictionary deletion yields a sublist. -/
theorem removeBy_sublist {α : Type} (key : α → Nat) (l : List α) (k : Nat) :
    List.Sublist (removeBy key l k) l := by
  induction l with
  | nil => simp [removeBy]
  | cons x rest ih =>
    simp only [removeBy]
    split
    · exact List.sublist_cons_self x rest
    · exact List.Sublist.cons₂ x ih

/-- Dictionary deletion preserves key uniqueness. -/
theorem removeBy_map_nodup {α : Type} (key : α → Nat) (l : List α) (k : Nat)
    (h : (l.map key).Nodup) : ((removeBy key l k).map key).Nodup :=
  h.sublist ((removeBy_sublist key l k).map key)

/-- `get_latest_version` returns one of the note's stored versions. -/
theorem getLatestVersion_mem (s : RepoState) (nid : Nat) (v : Version)
    (h : getLatestVersion s nid = some v) : v ∈ s.versions ∧ v.note_id = nid := by
  unfold getLatestVersion at h
  exact versionsOf_mem s.versions nid v (pickMaxIndex_mem _ _ h)

/-- The special-merge tail of `merge_review` never touches the notes store. -/
theorem finishSpecialMerge_notes (s : RepoState) (rv : Review) (reviewer : String)
    (c : Option String) : (finishSpecialMerge s rv reviewer c).1.notes = s.notes := by
  unfold finishSpecialMerge
  dsimp only
  repeat' (first | split | dsimp only)
  all_goals apply updateReviewRepo_notes

/-- If `approve_version` makes some note reference a version id no note
referenced before, that version is APPROVED afterwards (the error paths leave
the notes store untouched; the success path repoints the owning note at the
version it has just patched to APPROVED). -/
theorem approveVersion_current_case (s : RepoState) (w : Nat) (rv : String) (c : Option String)
    (nid vid : Nat) (n' : Note)
    (hpost : getNote (approveVersion s w rv c).1 nid = some n')
    (hcur : n'.current_version_id = some vid)
    (hpre : ∀ n ∈ s.notes, n.current_version_id ≠ some vid) :
    versionState (approveVersion s w rv c).1 vid = some NoteState.approved := by
  unfold approveVersion at hpost ⊢
  cases hgv : getVersion s w with
  | none =>
    simp only [hgv] at hpost
    exact (preNotes_contra rfl nid vid n' hpost hcur hpre).elim
  | some version =>
    simp only [hgv] at hpost ⊢
    by_cases hst : version.state ≠ NoteState.needsReview
    · rw [if_pos hst] at hpost
      exact (preNotes_contra rfl nid vid n' hpost hcur hpre).elim
    · rw [if_neg hst] at hpost ⊢
      rw [updateVersionRepo_found s w _ version hgv] at hpost ⊢
      simp only [] at hpost ⊢
      rcases getNote_setNoteCurrentVersion _ _ _ _ nid n' hpost with ⟨n, hn, hor⟩
      rcases hor with hsame | hset
      · exact (preservedCurrent_contra ⟨n, hn, hsame⟩ hcur hpre).elim
      · have hww : some w = some vid := hset ▸ hcur
        have hwv : w = vid := Option.some.inj hww
        subst hwv
        unfold versionState getVersion setNoteCurrentVersion
        dsimp only
        rw [findBy_updateBy_const Version.id s.versions w (applyVersionPatch version _)
          ((applyVersionPatch_id version _).trans (findBy_mem Version.id s.versions w version hgv).2)
          version hgv]
        rfl

/-- C1 (amended): whenever a single workflow operation makes some note's
`current_version_id` reference a version id `vid` that no note referenced
before, then either the operation is `create_note` — whose fresh note points
at its version-0 DRAFT — or the referenced version is APPROVED in the
post-state. Well-formedness of the pre-state (unique version ids, id counter
above every version id) holds in every reachable state. The original claim —
that a set `current_version_id` always references an APPROVED version — is
refuted by `createNote_current_points_to_draft`. -/
theorem currentVersion_set_approved_or_create_draft (s : RepoState) (op : Op)
    (nid vid : Nat) (n' : Note)
    (hnd : (s.versions.map Version.id).Nodup)
    (hfr : ∀ v ∈ s.versions, v.id < s.nextId)
    (hpost : getNote (applyOp s op) nid = some n')
    (hcur : n'.current_version_id = some vid)
    (hpre : ∀ n ∈ s.notes, n.current_version_id ≠ some vid) :
    (∃ a t c tg vec, op = Op.createNote a t c tg vec ∧
        versionState (applyOp s op) vid = some NoteState.draft) ∨
    versionState (applyOp s op) vid = some NoteState.approved := by
  cases op with
  | updateDraft w a t c tg vv =>
    exact ((preNotes_contra (updateDraft_notes s w a t c tg vv) nid vid n'
      hpost hcur hpre)).elim
  | submitForReview w sub t d rs sc =>
    exact ((preNotes_contra (submitVersionForReview_notes s w sub t d rs sc) nid vid n'
      hpost hcur hpre)).elim
  | createDraftFromCurrent k a c t tg vv =>
    exact ((preNotes_contra (createDraftFromCurrent_notes s k a c t tg vv) nid vid n'
      hpost hcur hpre)).elim
  | commentOnReview rid a m =>
    exact ((preNotes_contra (commentOnReview_notes s rid a m) nid vid n'
      hpost hcur hpre)).elim
  | approveReview rid r c =>
    exact ((preNotes_contra (approveReview_notes s rid r c) nid vid n'
      hpost hcur hpre)).elim
  | requestChanges rid r c =>
    exact ((preNotes_contra (requestChanges_notes s rid r c) nid vid n'
      hpost hcur hpre)).elim
  | closeReview rid a m =>
    exact ((preNotes_contra (closeReview_notes s rid a m) nid vid n'
      hpost hcur hpre)).elim
  | reopenReview rid a m =>
    exact ((preNotes_contra (reopenReview_notes s rid a m) nid vid n'
      hpost hcur hpre)).elim
  | requestNoteDeletion k q re rs =>
    exact ((preNotes_contra (requestNoteDeletion_notes s k q re rs) nid vid n'
      hpost hcur hpre)).elim
  | requestNoteRestore k q re rs =>
    exact ((preNotes_contra (requestNoteRestore_notes s k q re rs) nid vid n'
      hpost hcur hpre)).elim
  | approveVersion w rv c =>
    exact Or.inr (approveVersion_current_case s w rv c nid vid n' hpost hcur hpre)
  | voteNote k up =>
    refine Or.inr ?_
    have hp : getNote (voteNote s k up).1 nid = some n' := hpost
    unfold voteNote updateVoteCounts at hp
    cases hk : getNote s k with
    | none =>
      simp only [hk] at hp
      exact (preNotes_contra rfl nid vid n' hp hcur hpre).elim
    | some note =>
      simp only [hk] at hp
      split at hp
      all_goals
        exact (preservedCurrent_contra
          (getNote_updateBy_current s.notes k _ nid n' hp
            (fun x hx => (findBy_mem Note.id s.notes k note hk).2)
            (fun x hx hfx => by
              have he : note = x := Option.some.inj (hk.symm.trans hfx)
              rw [← he]))
          hcur hpre).elim
  | discardDraft k a =>
    refine Or.inr ?_
    have hp : getNote (discardDraft s k a).1 nid = some n' := hpost
    show versionState (discardDraft s k a).1 vid = some NoteState.approved
    unfold discardDraft at hp ⊢
    cases hk : getNote s k with
    | none =>
      simp only [hk] at hp
      exact (preNotes_contra rfl nid vid n' hp hcur hpre).elim
    | some note =>
      simp only [hk] at hp ⊢
      cases hd : getDraftForNote s k with
      | none =>
        simp only [hd] at hp
        exact (preNotes_contra rfl nid vid n' hp hcur hpre).elim
      | some draft =>
        simp only [hd] at hp ⊢
        by_cases hcb : draft.created_by ≠ a
        · rw [if_pos hcb] at hp
          exact (preNotes_contra rfl nid vid n' hp hcur hpre).elim
        · rw [if_neg hcb] at hp ⊢
          by_cases hcv : note.current_version_id = some draft.id
          · rw [if_pos hcv] at hp ⊢
            cases hlv : getLatestVersion (deleteVersionRepo s draft.id) k with
            | none =>
              simp only [hlv] at hp
              rcases getNote_setNoteCurrentVersion _ _ _ _ nid n' hp with ⟨n, hn, hor⟩
              rcases hor with hsame | hnone
              · exact (preservedCurrent_contra ⟨n, hn, hsame⟩ hcur hpre).elim
              · rw [hnone] at hcur
                simp at hcur
            | some latest =>
              simp only [hlv] at hp ⊢
              by_cases hls : latest.state = NoteState.approved
              · rw [if_pos hls] at hp ⊢
                rcases getNote_setNoteCurrentVersion _ _ _ _ nid n' hp with ⟨n, hn, hor⟩
                rcases hor with hsame | hset
                · exact (preservedCurrent_contra ⟨n, hn, hsame⟩ hcur hpre).elim
                · rw [hset] at hcur
                  have hvl : latest.id = vid := Option.some.inj hcur
                  subst hvl
                  unfold versionState getVersion setNoteCurrentVersion
                  dsimp only
                  have hmem := getLatestVersion_mem (deleteVersionRepo s draft.id) k latest hlv
                  have hnd1 : (((deleteVersionRepo s draft.id).versions).map Version.id).Nodup :=
                    removeBy_map_nodup Version.id s.versions draft.id hnd
                  rw [findBy_of_mem_nodup Version.id _ latest hnd1 hmem.1]
                  simp [hls]
              · rw [if_neg hls] at hp
                rcases getNote_setNoteCurrentVersion _ _ _ _ nid n' hp with ⟨n, hn, hor⟩
                rcases hor with hsame | hnone
                · exact (preservedCurrent_contra ⟨n, hn, hsame⟩ hcur hpre).elim
                · rw [hnone] at hcur
                  simp at hcur
          · rw [if_neg hcv] at hp
            exact (preNotes_contra rfl nid vid n' hp hcur hpre).elim
  | mergeReview rid rv c =>
    refine Or.inr ?_
    have hp : getNote (mergeReview s rid rv c).1 nid = some n' := hpost
    show versionState (mergeReview s rid rv c).1 vid = some NoteState.approved
    unfold mergeReview at hp ⊢
    cases hgr : getReview s rid with
    | none =>
      simp only [hgr] at hp
      exact (preNotes_contra rfl nid vid n' hp hcur hpre).elim
    | some review =>
      simp only [hgr] at hp ⊢
      by_cases hm : review.status = ReviewStatus.merged
      · rw [if_pos hm] at hp
        exact (preNotes_contra rfl nid vid n' hp hcur hpre).elim
      · rw [if_neg hm] at hp ⊢
        by_cases hcb : review.created_by = rv
        · rw [if_pos hcb] at hp
          exact (preNotes_contra rfl nid vid n' hp hcur hpre).elim
        · rw [if_neg hcb] at hp ⊢
          cases hdv : review.draft_version_id with
          | none =>
            simp only [hdv] at hp
            split at hp
            all_goals first
              | exact (preNotes_contra rfl nid vid n' hp hcur hpre).elim
              | (rw [getNote_of_notes_eq (finishSpecialMerge_notes _ _ _ _) nid] at hp
                 exact (preservedCurrent_contra
                   (getNote_updateBy_current s.notes review.note_id _ nid n' hp
                     (fun x hx => hx) (fun x hx hfx => rfl)) hcur hpre).elim)
          | some dvid =>
            simp only [hdv] at hp ⊢
            rcases hap : approveVersion s dvid rv c with ⟨s1, res⟩
            rw [hap] at hp
            cases res with
            | error e =>
              simp only [] at hp ⊢
              have hres := approveVersion_current_case s dvid rv c nid vid n'
                (by rw [hap]; exact hp) hcur hpre
              rw [hap] at hres
              exact hres
            | ok version =>
              simp only [] at hp ⊢
              split at hp
              · dsimp only at hp ⊢
                rw [getNote_of_notes_eq (updateReviewRepo_notes _ _ _) nid] at hp
                rw [versionState_congr (updateReviewRepo_versions _ _ _) vid]
                have hres := approveVersion_current_case s dvid rv c nid vid n'
                  (by rw [hap]; exact hp) hcur hpre
                rw [hap] at hres
                exact hres
              · dsimp only at hp ⊢
                rw [getNote_of_notes_eq (addReviewEvent_notes _ _ _ _ _) nid,
                    getNote_of_notes_eq (updateReviewRepo_notes _ _ _) nid] at hp
                rw [versionState_congr (addReviewEvent_versions _ _ _ _ _) vid,
                    versionState_congr (updateReviewRepo_versions _ _ _) vid]
                have hres := approveVersion_current_case s dvid rv c nid vid n'
                  (by rw [hap]; exact hp) hcur hpre
                rw [hap] at hres
                exact hres
  | createNote a t c tg vv =>
    have hp : getNote (createNote s a t c tg vv).1 nid = some n' := hpost
    unfold createNote createNoteWithVersion at hp
    unfold getNote at hp
    dsimp only at hp
    rw [findBy_append] at hp
    cases hn : findBy Note.id s.notes nid with
    | some n0 =>
      simp only [hn] at hp
      injection hp with hpe
      subst hpe
      exact ((preNotes_contra rfl nid vid n0 hn hcur hpre)).elim
    | none =>
      simp only [hn, findBy] at hp
      split at hp
      · rename_i hid
        injection hp with hp2
        rw [← hp2] at hcur
        simp only [] at hcur
        have hvid : s.nextId + 1 = vid := Option.some.inj hcur
        refine Or.inl ⟨a, t, c, tg, vv, rfl, ?_⟩
        show versionState (createNote s a t c tg vv).1 vid = some NoteState.draft
        unfold createNote createNoteWithVersion versionState getVersion
        dsimp only
        rw [findBy_append]
        have hnone : findBy Version.id s.versions vid = none := by
          apply findBy_eq_none
          intro x hx
          have := hfr x hx
          omega
        rw [hnone]
        simp only [findBy]
        rw [← hvid]
        simp
      · cases hp

/-- Witness for C1: approving freshly submitted version 5 repoints note 1
from version 2 to version 5, which is APPROVED afterwards. -/
theorem currentVersion_set_approved_or_create_draft_witness :
    (∀ n ∈ (runOps initState [Op.createNote "alice" "T" "C" [] [],
        Op.submitForReview 2 "alice" none none none none,
        Op.approveVersion 2 "bob" none,
        Op.createDraftFromCurrent 1 "alice" "C2" none none [],
        Op.submitForReview 5 "alice" none none none none]).notes,
      n.current_version_id ≠ some 5) ∧
    ((∃ a t c tg vec, Op.approveVersion 5 "bob" none = Op.createNote a t c tg vec ∧
        versionState (applyOp (runOps initState [Op.createNote "alice" "T" "C" [] [],
          Op.submitForReview 2 "alice" none none none none,
          Op.approveVersion 2 "bob" none,
          Op.createDraftFromCurrent 1 "alice" "C2" none none [],
          Op.submitForReview 5 "alice" none none none none]) (Op.approveVersion 5 "bob" none)) 5 =
          some NoteState.draft) ∨
      versionState (applyOp (runOps initState [Op.createNote "alice" "T" "C" [] [],
        Op.submitForReview 2 "alice" none none none none,
        Op.approveVersion 2 "bob" none,
        Op.createDraftFromCurrent 1 "alice" "C2" none none [],
        Op.submitForReview 5 "alice" none none none none]) (Op.approveVersion 5 "bob" none)) 5 =
        some NoteState.approved) :=
  ⟨by decide,
    currentVersion_set_approved_or_create_draft (runOps initState [Op.createNote "alice" "T" "C" [] [],
        Op.submitForReview 2 "alice" none none none none,
        Op.approveVersion 2 "bob" none,
        Op.createDraftFromCurrent 1 "alice" "C2" none none [],
        Op.submitForReview 5 "alice" none none none none])
      (Op.approveVersion 5 "bob" none) 1 5
      { id := 1, title := "T", created_at := 0, created_by := "alice",
        committed_by := some "bob", tags := [], current_version_id := some 5,
        upvotes := 0, downvotes := 0, deleted_at := none, deleted_by := none }
      (by decide) (by decide) (by decide) (by decide) (by decide)⟩
